import Mathlib

/-!
Shallow embedding of the chika configuration library (src/chika/chika.py and
src/chika/utils.py): dynamic Python values, the typing-level representation of
field annotations, the argument-surface builder, the namespace merge engine,
and the dict round-trip functions of ChikaConfig.
-/

namespace Chika

/-- Python exceptions raised by the code paths we model. -/
inductive PyErr where
  | typeError (msg : String)
  | valueError (msg : String)
  | keyError (key : String)
  | runtimeError (msg : String)
  | fileNotFound (msg : String)
  | notImplemented (msg : String)
  | argparseError (msg : String)
deriving DecidableEq, Repr

/-- Dynamic Python values as they flow through chika: primitives, containers,
enumeration members (cls plus underlying value), dataclass instances
(cls plus ordered field assignments), plain dicts, and the DefaultUntouched
provenance wrapper from utils.py. -/
inductive PyVal where
  | none
  | bool (b : Bool)
  | int (n : Int)
  | float (q : Rat)
  | str (s : String)
  | list (xs : List PyVal)
  | tuple (xs : List PyVal)
  | enumV (cls : String) (value : PyVal)
  | obj (cls : String) (fields : List (String × PyVal))
  | pydict (entries : List (String × PyVal))
  | untouched (v : PyVal)

/-- Metadata attached to a dataclass field by chika helper functions
(with_help, choices, sequence, required, bounded); models the metadata dict
copied into kwargs at chika.py line 84. The bounded helper stores its _impl
closure under the type key; we record just its bounds. -/
structure MetaInfo where
  help : Option String := Option.none
  default : Option PyVal := Option.none
  required : Bool := false
  choices : Option (List PyVal) := Option.none
  boundedType : Option (Option Rat × Option Rat) := Option.none

mutual
/-- Typing-level representation of a field annotation, mirroring what
typing.get_type_hints returns: primitives, container generics with their
element type, Enum subclasses (with the list of member values), unions
(Optional t is unionT [t, noneT]) and nested ChikaConfig dataclasses. -/
inductive FieldTy where
  | boolT
  | intT
  | floatT
  | strT
  | noneT
  | listOf (elem : FieldTy)
  | tupleOf (elem : FieldTy)
  | enumT (cls : String) (values : List PyVal)
  | unionT (args : List FieldTy)
  | dataclassT (cls : String) (fields : List FieldDecl)

/-- One dataclass field: its name, resolved annotation, dataclass default
(Option.none models dataclasses.MISSING) and chika metadata. -/
inductive FieldDecl where
  | mk (name : String) (ty : FieldTy) (dflt : Option PyVal) (meta : MetaInfo)
end

def FieldDecl.name : FieldDecl → String
  | .mk n _ _ _ => n

def FieldDecl.ty : FieldDecl → FieldTy
  | .mk _ t _ _ => t

def FieldDecl.dflt : FieldDecl → Option PyVal
  | .mk _ _ d _ => d

def FieldDecl.meta : FieldDecl → MetaInfo
  | .mk _ _ _ m => m

/-- Shorthand for the annotation Optional[t], i.e. Union[t, None]. -/
def optionalTy (t : FieldTy) : FieldTy := .unionT [t, .noneT]

/-! ## utils.py: file-type predicates and type helpers -/

/-- SUPPORTED_SUFFIXES from utils.py (JSON_SUFFIXES union YAML_SUFFIXES). -/
def SUPPORTED_SUFFIXES : List String := [".json", ".yaml", ".yml"]

/-- Parsing of an unsigned decimal digit string, as used by int() and
float(). -/
def charsToNat? (cs : List Char) : Option Nat :=
  if cs.isEmpty then Option.none
  else if cs.all Char.isDigit then
    some (cs.foldl (fun acc c => acc * 10 + (c.toNat - 48)) 0)
  else Option.none

/-- Python int() applied to a string: an optional minus sign followed by
decimal digits. -/
def strToInt? (s : String) : Option Int :=
  match s.data with
  | '-' :: rest => (charsToNat? rest).map (fun n => -(n : Int))
  | cs => (charsToNat? cs).map (fun n => (n : Int))

/-- Model of pathlib.Path(file).suffix: the final dot-led extension of the
last path component, empty when the component has no dot or only a leading
dot. -/
def pathSuffix (s : String) : String :=
  let base := (s.data.splitOn '/').getLast!
  let parts := base.splitOn '.'
  if parts.length ≤ 1 then ""
  else
    let ext := parts.getLast!
    if (parts.take (parts.length - 1)).all (fun p => p.isEmpty) then ""
    else String.mk ('.' :: ext)

/-- is_supported_filetype from utils.py. -/
def is_supported_filetype (file : String) : Bool :=
  SUPPORTED_SUFFIXES.contains (pathSuffix file)

/-- Model of typing.get_args applied to our annotation representation: the
member list of a union, empty for every non-union annotation (the code only
ever uses it on unions inside unpack handling). -/
def tyGetArgs : FieldTy → List FieldTy
  | .unionT args => args
  | _ => []

/-- Predicate _is_optional from utils.py: the annotation is a Union whose
final argument is NoneType. -/
def is_optional (t : FieldTy) : Bool :=
  match t with
  | .unionT args =>
    match args.getLast? with
    | some .noneT => true
    | _ => false
  | _ => false

/-- Python len applied to a type object or a generic alias. No type object
and no typing generic alias defines a length, so the call raises TypeError;
this models the crash of len(args) at utils.py line 88, where args is the
first member of the union (a type object), not the argument tuple. -/
def pyLenOfType (_t : FieldTy) : Except PyErr Nat :=
  .error (.typeError "object of type type has no len()")

/-- Faithful model of _unpack_optional from utils.py lines 82-100: when the
annotation is optional, args is bound to typing.get_args(_type)[0] (the first
union member, a type object) and len(args) is evaluated next, which raises
TypeError before any of the unwrap logic below it can run. -/
def unpack_optional (t : FieldTy) : Except PyErr FieldTy :=
  if ¬ is_optional t then .ok t
  else
    match tyGetArgs t with
    | [] => .ok t
    | arg0 :: _ => do
      let n ← pyLenOfType arg0
      if n > 1 then .ok t else .ok t

/-- Membership test against the _primitive_types list of utils.py. -/
def isPrimitiveTy : FieldTy → Bool
  | .boolT | .intT | .floatT | .strT => true
  | _ => false

/-- Membership of typing.get_origin(t) in _container_types; models
_is_container_type restricted to the generics we represent. -/
def isContainerTy : FieldTy → Bool
  | .listOf _ | .tupleOf _ => true
  | _ => false

/-- Predicate dataclasses.is_dataclass on an annotation. -/
def isDataclassTy : FieldTy → Bool
  | .dataclassT _ _ => true
  | _ => false

/-- Model of the check isinstance(field_type_hints[name], enum.Enum) at
chika.py line 319. The hint is always a class (an instance of the metaclass
EnumMeta, never of Enum itself), so the isinstance test is False for every
annotation, including Enum subclasses. -/
def isinstanceEnum (_t : FieldTy) : Bool := false

/-- Model of isinstance(field_type, type) and issubclass(field_type, Enum)
at chika.py line 89. -/
def isEnumClassTy : FieldTy → Bool
  | .enumT _ _ => true
  | _ => false

mutual
/-- Structural equality of dynamic values, used where the Python code
compares values (choice membership, enum lookup by value). -/
def PyVal.beq : PyVal → PyVal → Bool
  | .none, .none => true
  | .bool a, .bool b => a == b
  | .int a, .int b => a == b
  | .float a, .float b => a == b
  | .str a, .str b => a == b
  | .list a, .list b => PyVal.beqList a b
  | .tuple a, .tuple b => PyVal.beqList a b
  | .enumV c a, .enumV d b => c == d && PyVal.beq a b
  | .obj c a, .obj d b => c == d && PyVal.beqEntries a b
  | .pydict a, .pydict b => PyVal.beqEntries a b
  | .untouched a, .untouched b => PyVal.beq a b
  | _, _ => false
termination_by structural a _b => a

def PyVal.beqList : List PyVal → List PyVal → Bool
  | [], [] => true
  | a :: as_, b :: bs => PyVal.beq a b && PyVal.beqList as_ bs
  | _, _ => false
termination_by structural a _b => a

def PyVal.beqEntries : List (String × PyVal) → List (String × PyVal) → Bool
  | [], [] => true
  | (k, a) :: as_, (l, b) :: bs => k == l && PyVal.beq a b && PyVal.beqEntries as_ bs
  | _, _ => false
termination_by structural a _b => a
end

/-! ## ChikaConfig.to_dict: dataclasses.asdict followed by _enum_to_value -/

mutual
/-- Model of dataclasses.asdict: dataclass instances become dicts, lists,
tuples and dict values are rebuilt recursively, every other value (including
enum members and DefaultUntouched wrappers) is deep-copied unchanged. -/
def asdict : PyVal → PyVal
  | .obj _ fields => .pydict (asdictEntries fields)
  | .pydict es => .pydict (asdictEntries es)
  | .list xs => .list (asdictList xs)
  | .tuple xs => .tuple (asdictList xs)
  | v => v
termination_by structural v => v

def asdictList : List PyVal → List PyVal
  | [] => []
  | v :: vs => asdict v :: asdictList vs
termination_by structural l => l

def asdictEntries : List (String × PyVal) → List (String × PyVal)
  | [] => []
  | (k, v) :: es => (k, asdict v) :: asdictEntries es
termination_by structural l => l
end

mutual
/-- Model of _enum_to_value from utils.py: walks a dict, recursing into dict
values and replacing enum members by their underlying value; every other
value (including enums buried inside lists) is left alone. -/
def enum_to_value : List (String × PyVal) → List (String × PyVal)
  | [] => []
  | (k, v) :: es => (k, enumValConv v) :: enum_to_value es
termination_by structural l => l

/-- Conversion _enum_to_value applies to a single dict value. -/
def enumValConv : PyVal → PyVal
  | .pydict inner => .pydict (enum_to_value inner)
  | .enumV _ value => value
  | other => other
termination_by structural v => v
end

/-- Entries of ChikaConfig.to_dict (chika.py line 304):
_enum_to_value(dataclasses.asdict(self)). -/
def to_dict_entries (c : PyVal) : List (String × PyVal) :=
  match asdict c with
  | .pydict es => enum_to_value es
  | _ => []

/-- ChikaConfig.to_dict as a dict value. -/
def to_dict (c : PyVal) : PyVal := .pydict (to_dict_entries c)

/-! ## Python primitive calls used as argparse type functions and by
from_dict coercion -/

/-- Decimal literal parsing for float(): optional sign, digits, optional
fractional part, assembled as a rational with mkRat. -/
def parseRat? (s : String) : Option Rat :=
  let (sign, t) : Int × List Char :=
    match s.data with
    | '-' :: rest => (-1, rest)
    | cs => (1, cs)
  match t.splitOn '.' with
  | [w] => (charsToNat? w).map (fun n => mkRat (sign * n) 1)
  | [w, f] =>
    match charsToNat? w, charsToNat? f with
    | some wn, some fn =>
      some (mkRat (sign * (wn * 10 ^ f.length + fn)) (10 ^ f.length))
    | _, _ => Option.none
  | _ => Option.none

/-- Python str() on the primitives that can reach it. Container and object
rendering is never exercised by the modelled paths. -/
def pyStrOfVal : PyVal → String
  | .str s => s
  | .int n => toString n
  | .bool b => if b then "True" else "False"
  | .none => "None"
  | _ => ""

/-- Python truthiness, for bool(). -/
def pyTruthy : PyVal → Bool
  | .none => false
  | .bool b => b
  | .int n => n != 0
  | .float q => q != 0
  | .str s => s != ""
  | .list xs => !xs.isEmpty
  | .tuple xs => !xs.isEmpty
  | _ => true

/-- Python int() truncation toward zero of a rational. -/
def intOfRat (q : Rat) : Int := q.num.tdiv q.den

/-- Calling a type annotation on a value, as argparse does with its type
keyword and as from_dict does with ft(value): int(), float(), str(), bool(),
an Enum class call (lookup by member value), list() and tuple() conversion.
Dataclass and union annotations are never called this way in the code. -/
def pyCallType : FieldTy → PyVal → Except PyErr PyVal
  | .intT, v =>
    match v with
    | .int n => .ok (.int n)
    | .bool b => .ok (.int (if b then 1 else 0))
    | .float q => .ok (.int (intOfRat q))
    | .str s =>
      match strToInt? s with
      | some n => .ok (.int n)
      | Option.none => .error (.valueError ("invalid literal for int() with base 10: " ++ s))
    | _ => .error (.typeError "int() argument must be a string or a number")
  | .floatT, v =>
    match v with
    | .float q => .ok (.float q)
    | .int n => .ok (.float (mkRat n 1))
    | .bool b => .ok (.float (if b then mkRat 1 1 else mkRat 0 1))
    | .str s =>
      match parseRat? s with
      | some q => .ok (.float q)
      | Option.none => .error (.valueError ("could not convert string to float: " ++ s))
    | _ => .error (.typeError "float() argument must be a string or a number")
  | .strT, v => .ok (.str (pyStrOfVal v))
  | .boolT, v => .ok (.bool (pyTruthy v))
  | .enumT cls values, v =>
    if values.any (fun w => PyVal.beq w v) then .ok (.enumV cls v)
    else .error (.valueError ("is not a valid " ++ cls))
  | .listOf _, v =>
    match v with
    | .list xs => .ok (.list xs)
    | .tuple xs => .ok (.list xs)
    | _ => .error (.typeError "list() argument must be an iterable")
  | .tupleOf _, v =>
    match v with
    | .tuple xs => .ok (.tuple xs)
    | .list xs => .ok (.tuple xs)
    | _ => .error (.typeError "tuple() argument must be an iterable")
  | _, _ => .error (.typeError "annotation is not callable")

/-- Python Number coercion view: int, float and bool are Numbers, nothing
else we model is (in particular str is not). -/
def numOf : PyVal → Option Rat
  | .int n => some (mkRat n 1)
  | .float q => some q
  | .bool b => some (if b then mkRat 1 1 else mkRat 0 1)
  | _ => Option.none

/-- Lower-bound comparison where Option.none stands for minus infinity,
as in bounded where a missing _from becomes -math.inf. -/
def loLe (lo : Option Rat) (x : Rat) : Bool :=
  match lo with
  | Option.none => true
  | some l => decide (l ≤ x)

/-- Upper-bound comparison where Option.none stands for plus infinity. -/
def leHi (hi : Option Rat) (x : Rat) : Bool :=
  match hi with
  | Option.none => true
  | some h => decide (x ≤ h)

/-- The closure _impl produced by bounded (chika.py lines 285-290): raises
ValueError when the argument is not a Number (argparse always hands it the
raw string token) and when the value violates the bounds; returns the value
unchanged otherwise. -/
def boundedImplCall (lo hi : Option Rat) (v : PyVal) : Except PyErr PyVal :=
  match numOf v with
  | Option.none => .error (.valueError "value needs to be number")
  | some x =>
    if loLe lo x && leHi hi x then .ok v
    else .error (.valueError "value is out of the expected range")

/-! ## Surface builder: ChikaArgumentParser.add_dataclass_arguments -/

/-- The argparse action chosen for a switch. -/
inductive ArgAction where
  | store
  | storeTrue
  | storeFalse
deriving DecidableEq, Repr

/-- The type keyword handed to add_argument: absent, a type annotation to be
called on the token, or the bound-checking closure from bounded. -/
inductive TypeFn where
  | noneFn
  | ofTy (t : FieldTy)
  | boundedImpl (lo hi : Option Rat)

/-- One registered CLI switch: its qualified destination name (without the
leading dashes), action, type function, required flag, computed default (with
DefaultUntouched wrapping where the source applies it) and choice list.
When suppress is true the switch was registered with default
argparse.SUPPRESS, so an unpassed switch leaves no namespace entry. -/
structure ArgSpec where
  name : String
  action : ArgAction := ArgAction.store
  typeFn : TypeFn := TypeFn.noneFn
  required : Bool := false
  default : Option PyVal := Option.none
  suppress : Bool := false
  choices : Option (List PyVal) := Option.none

/-- Test modelling the Python checks kwargs.get(defaultKey) is None: true
when the key is absent or holds Python None. -/
def optIsNone : Option PyVal → Bool
  | Option.none => true
  | some .none => true
  | some _ => false

/-- Identity test field_type is bool at chika.py line 95 (the companion
test against Optional of bool is unreachable, since unpack_optional raises
on every optional annotation before this point). -/
def isBoolTy : FieldTy → Bool
  | .boolT => true
  | _ => false

/-- Computational description of unpack_optional: it returns its argument
unchanged on every non-optional annotation and raises TypeError on every
optional annotation (the len call at utils.py line 88 fires before any
unwrapping). Used to justify inlining its outcome where structural recursion
needs the unchanged annotation. -/
theorem unpack_optional_spec (t : FieldTy) :
    (is_optional t = false → unpack_optional t = .ok t) ∧
    (is_optional t = true → unpack_optional t =
      .error (.typeError "object of type type has no len()")) := by
  constructor
  · intro h
    simp [unpack_optional, h]
  · intro h
    unfold unpack_optional
    simp only [h]
    match t, h with
    | .unionT args, h =>
      match args, h with
      | a :: rest, _ => simp [tyGetArgs, pyLenOfType, Bind.bind, Except.bind]

/-- Qualified switch name: the field name, dot-prefixed when nested. -/
def qualName (pfx : Option String) (nm : String) : String :=
  match pfx with
  | Option.none => nm
  | some p => p ++ "." ++ nm

/-- Enum-class branch of add_dataclass_arguments (chika.py lines 89-93):
choices are the member values; the dataclass default is installed unless the
metadata marks the field required. -/
def addEnumArg (fieldName : String) (fieldTy : FieldTy) (values : List PyVal)
    (fdflt : Option PyVal) (kw : MetaInfo) : ArgSpec :=
  { name := fieldName, typeFn := .ofTy fieldTy, required := kw.required,
    default := if kw.required then kw.default else fdflt,
    choices := some values }

/-- Bool branch (chika.py lines 95-97): a toggle whose action is store_false
exactly when the dataclass default is the literal True. -/
def addBoolArg (fieldName : String) (fdflt : Option PyVal) (kw : MetaInfo) :
    ArgSpec :=
  { name := fieldName,
    action := match fdflt with
      | some (.bool true) => ArgAction.storeFalse
      | _ => ArgAction.storeTrue,
    required := kw.required, default := kw.default, choices := kw.choices }

/-- Container branch (chika.py lines 99-102): a multi-token switch
converting each token with the element annotation. -/
def addContainerArg (fieldName : String) (elem : FieldTy) (kw : MetaInfo) :
    ArgSpec :=
  { name := fieldName, typeFn := .ofTy elem, required := kw.required,
    default := kw.default, choices := kw.choices }

/-- Generic branch (chika.py lines 123-136): the kwargs type entry is
overwritten with the annotation (discarding any metadata type function); a
field with neither dataclass default nor metadata default becomes required
at the root and a DefaultUntouched(None) carrier when nested; defaults of
nested fields are wrapped in DefaultUntouched. -/
def addLeafArg (fieldName : String) (fieldTy : FieldTy) (fdflt : Option PyVal)
    (kw : MetaInfo) (nest : Nat) : ArgSpec :=
  let base : ArgSpec := { name := fieldName, typeFn := .ofTy fieldTy,
                          required := kw.required, choices := kw.choices }
  if fdflt.isNone && optIsNone kw.default then
    if nest = 0 then { base with required := true, default := kw.default }
    else { base with default := some (.untouched .none) }
  else
    match fdflt with
    | some d =>
      { base with default := some (if nest = 0 then d else .untouched d) }
    | Option.none =>
      if nest > 0 && ! optIsNone kw.default then
        match kw.default with
        | some md => { base with default := some (.untouched md) }
        | Option.none => { base with default := kw.default }
      else { base with default := kw.default }

/-- Child-level (nest_level = 1) instance of the per-field body of
add_dataclass_arguments: identical to the root instance except that a
nested-dataclass field raises the depth-cap NotImplementedError instead of
recursing. The source's single recursive function only ever runs at
nest_level 0 or 1, because level 1 raises before it could recurse, so the
recursion is modelled by this stratified pair. -/
def addArgsFieldChild (fd : FieldDecl) (pfx : Option String) :
    Except PyErr (List ArgSpec) :=
  match fd with
  | .mk fname fieldTy fdflt kw =>
    if is_optional fieldTy then
      -- outcome of unpack_optional on an optional annotation
      .error (.typeError "object of type type has no len()")
    else
      let fieldName := qualName pfx fname
      if isEnumClassTy fieldTy then
        match fieldTy with
        | .enumT _ values => .ok [addEnumArg fieldName fieldTy values fdflt kw]
        | _ => .error (.runtimeError "unreachable")
      else if isBoolTy fieldTy then
        .ok [addBoolArg fieldName fdflt kw]
      else if isContainerTy fieldTy then
        match fieldTy with
        | .listOf elem => .ok [addContainerArg fieldName elem kw]
        | .tupleOf elem => .ok [addContainerArg fieldName elem kw]
        | _ => .error (.runtimeError "unreachable")
      else if isDataclassTy fieldTy then
        .error (.notImplemented "The depth of config is expected to be at most 2")
      else
        .ok [addLeafArg fieldName fieldTy fdflt kw 1]

/-- Child-level field loop of add_dataclass_arguments. -/
def addArgsFieldsChild : List FieldDecl → Option String → Except PyErr (List ArgSpec)
  | [], _ => .ok []
  | fd :: rest, pfx => do
    let hd ← addArgsFieldChild fd pfx
    let tl ← addArgsFieldsChild rest pfx
    .ok (hd ++ tl)

/-- Model of the per-field body of add_dataclass_arguments (chika.py lines
66-138). The field annotation is first passed through unpack_optional, which
(per unpack_optional_spec) either raises TypeError or returns the annotation
unchanged; the branches then handle Enum classes, bool, containers, nested
dataclasses and the generic leaf case. A nested dataclass at positive
nest_level raises the depth cap; at the root its children are registered
through the child-level builder, which is the nest_level = 1 instance of
this very body. -/
def addArgsField (fd : FieldDecl) (pfx : Option String) (nest : Nat) :
    Except PyErr (List ArgSpec) :=
  match fd with
  | .mk fname fieldTy fdflt kw =>
    if is_optional fieldTy then
      -- outcome of unpack_optional on an optional annotation
      .error (.typeError "object of type type has no len()")
    else
      let fieldName := qualName pfx fname
      if isEnumClassTy fieldTy then
        match fieldTy with
        | .enumT _ values => .ok [addEnumArg fieldName fieldTy values fdflt kw]
        | _ => .error (.runtimeError "unreachable")
      else if isBoolTy fieldTy then
        .ok [addBoolArg fieldName fdflt kw]
      else if isContainerTy fieldTy then
        match fieldTy with
        | .listOf elem => .ok [addContainerArg fieldName elem kw]
        | .tupleOf elem => .ok [addContainerArg fieldName elem kw]
        | _ => .error (.runtimeError "unreachable")
      else if isDataclassTy fieldTy then
        match fieldTy with
        | .dataclassT _ nfields =>
          -- the source check nest_level > 0, written as a match on the depth
          match nest with
          | Nat.succ _ =>
            .error (.notImplemented "The depth of config is expected to be at most 2")
          | 0 =>
            match fdflt with
            | Option.none => do
              let children ← addArgsFieldsChild nfields (some fname)
              .ok ({ name := fieldName, suppress := true : ArgSpec} :: children)
            | some _ =>
              .error (.notImplemented "dataclass as default value is not supported")
        | _ => .error (.runtimeError "unreachable")
      else
        .ok [addLeafArg fieldName fieldTy fdflt kw nest]

/-- Model of the field loop of add_dataclass_arguments over a dataclass. -/
def addArgsFields : List FieldDecl → Option String → Nat → Except PyErr (List ArgSpec)
  | [], _, _ => .ok []
  | fd :: rest, pfx, nest => do
    let hd ← addArgsField fd pfx nest
    let tl ← addArgsFields rest pfx nest
    .ok (hd ++ tl)

/-! ## Mini argparse: namespace construction from registered switches -/

/-- Association-list lookup preserving Python dict key identity. -/
def alGet {α : Type} : List (String × α) → String → Option α
  | [], _ => Option.none
  | (k, v) :: es, key => if k = key then some v else alGet es key

/-- Association-list update: replaces the value in place when the key exists
(keeping dict insertion order) and appends a new entry otherwise, matching
Python dict assignment. -/
def alSet {α : Type} : List (String × α) → String → α → List (String × α)
  | [], key, v => [(key, v)]
  | (k, w) :: es, key, v =>
    if k = key then (k, v) :: es else (k, w) :: alSet es key v

/-- Applying the type keyword of a switch to a raw token. -/
def convertToken : TypeFn → PyVal → Except PyErr PyVal
  | .noneFn, v => .ok v
  | .ofTy t, v => pyCallType t v
  | .boundedImpl lo hi, v => boundedImplCall lo hi v

/-- Value a single switch contributes to the namespace: the converted and
choice-checked token when the switch is passed, its computed default (or the
action constant for toggles) when not; Option.none when the switch was
registered with argparse.SUPPRESS and not passed. -/
def specValue (a : ArgSpec) (cli : List (String × PyVal)) :
    Except PyErr (Option (String × PyVal)) :=
  match alGet cli a.name with
  | some tok =>
    match a.action with
    | .storeTrue => .ok (some (a.name, .bool true))
    | .storeFalse => .ok (some (a.name, .bool false))
    | .store => do
      let v ← convertToken a.typeFn tok
      match a.choices with
      | some cs =>
        if cs.any (fun c => PyVal.beq c v) then .ok (some (a.name, v))
        else .error (.argparseError ("argument --" ++ a.name ++ ": invalid choice"))
      | Option.none => .ok (some (a.name, v))
  | Option.none =>
    if a.suppress then .ok Option.none
    else
      let d := match a.default with
        | some d => d
        | Option.none =>
          match a.action with
          | .storeTrue => PyVal.bool false
          | .storeFalse => PyVal.bool true
          | .store => PyVal.none
      .ok (some (a.name, d))

/-- Namespace entries contributed by a list of switches, in order. -/
def specValues : List ArgSpec → List (String × PyVal) →
    Except PyErr (List (String × PyVal))
  | [], _ => .ok []
  | a :: rest, cli => do
    let hd ← specValue a cli
    let tl ← specValues rest cli
    .ok (match hd with
         | some e => e :: tl
         | Option.none => tl)

/-- Model of parse_known_args producing the namespace dict: missing required
switches abort with a usage error naming the switch; otherwise argparse
first materialises the defaults of all non-SUPPRESS switches in registration
order and only afterwards assigns switches seen on the command line, so the
destinations of SUPPRESS-registered switches (the nested-config file-path
switches) appear after every other entry in namespace iteration order. -/
def parseNamespace (specs : List ArgSpec) (cli : List (String × PyVal)) :
    Except PyErr (List (String × PyVal)) := do
  match specs.find? (fun a => a.required && (alGet cli a.name).isNone) with
  | some a =>
    .error (.argparseError ("the following arguments are required: --" ++ a.name))
  | Option.none => do
    let regular ← specValues (specs.filter (fun a => !a.suppress)) cli
    let late ← specValues
      (specs.filter (fun a => a.suppress && (alGet cli a.name).isSome)) cli
    .ok (regular ++ late)

/-! ## Resolution engine: parse_args_into_dataclass lines 145-177 -/

/-- Entry of the accumulating unflatten_dict: either a root leaf value or the
sub-dict collected for a nested config field. -/
inductive UEntry where
  | leaf (v : PyVal)
  | sub (d : List (String × PyVal))

/-- Reading unflatten_dict at a nested-config key: defaultdict(dict)
materialises an empty dict when the key is absent. -/
def getSub (e : Option UEntry) : List (String × PyVal) :=
  match e with
  | some (.sub d) => d
  | _ => []

/-- Merge of one loaded file entry into the sub-dict of a nested field
(chika.py lines 152-156): when the child key already has a namespace entry
that is not Python None, a DefaultUntouched namespace value is replaced by
the file value while an explicitly set value is kept; a file key without a
namespace entry is skipped entirely. -/
def mergeFileKey (d : List (String × PyVal)) (kv : String × PyVal) :
    List (String × PyVal) :=
  match alGet d kv.1 with
  | some old =>
    match old with
    | .none => d
    | .untouched _ => alSet d kv.1 kv.2
    | _ => alSet d kv.1 old
  | Option.none => d

/-- Python k.split(sep, 1) for the dot separator, returning the pieces when
the key is dotted. -/
def splitDot (k : String) : Option (String × String) :=
  match k.data.splitOn '.' with
  | [] => Option.none
  | [_] => Option.none
  | c :: rest => some (String.mk c, String.mk (List.intercalate ['.'] rest))

/-- Annotation of a root field, modelling typing.get_type_hints(dtype).get(k). -/
def rootFieldTy : List FieldDecl → String → Option FieldTy
  | [], _ => Option.none
  | fd :: rest, k => if fd.name = k then some fd.ty else rootFieldTy rest k

/-- Whether name_to_type.get(k) is a dataclass (chika.py line 148). -/
def isRootDataclassKey (fields : List FieldDecl) (k : String) : Bool :=
  match rootFieldTy fields k with
  | some t => isDataclassTy t
  | Option.none => false

/-- One iteration of the namespace loop of parse_args_into_dataclass (lines
147-164): nested-config keys load their file (failing on unsupported
filetypes) and merge it into the collected sub-dict; dotted keys are filed
under their parent; everything else is stored as a root leaf. -/
def processItem (fields : List FieldDecl)
    (fs : String → Option (List (String × PyVal)))
    (acc : List (String × UEntry)) (k : String) (v : PyVal) :
    Except PyErr (List (String × UEntry)) :=
  if isRootDataclassKey fields k then
    match v with
    | .str path =>
      if is_supported_filetype path then
        match fs path with
        | some loaded =>
          let d0 := getSub (alGet acc k)
          .ok (alSet acc k (.sub (loaded.foldl mergeFileKey d0)))
        | Option.none => .error (.fileNotFound (path ++ " not found"))
      else
        .error (.runtimeError "Unsupported filetype, config file must be one of SUPPORTED_SUFFIXES")
    | _ => .error (.runtimeError "Unsupported filetype, config file must be one of SUPPORTED_SUFFIXES")
  else
    match splitDot k with
    | some (clsName, clsField) =>
      .ok (alSet acc clsName (.sub (alSet (getSub (alGet acc clsName)) clsField v)))
    | Option.none => .ok (alSet acc k (.leaf v))

/-- Folding the namespace loop over all namespace entries. -/
def unflattenAux (fields : List FieldDecl)
    (fs : String → Option (List (String × PyVal)))
    (acc : List (String × UEntry)) :
    List (String × PyVal) → Except PyErr (List (String × UEntry))
  | [] => .ok acc
  | (k, v) :: rest => do
    let acc2 ← processItem fields fs acc k v
    unflattenAux fields fs acc2 rest

/-- Collapsing the unflatten accumulator into a plain dict value shape. -/
def toPyDictEntries (d : List (String × UEntry)) : List (String × PyVal) :=
  d.map (fun e =>
    (e.1, match e.2 with
          | .leaf v => v
          | .sub s => PyVal.pydict s))

mutual
/-- Model of remove_default_untouched (chika.py lines 166-175): walks a dict,
unwrapping DefaultUntouched values and recursing into dict values. -/
def remove_default_untouched : List (String × PyVal) → List (String × PyVal)
  | [] => []
  | (k, v) :: rest => (k, removeDUVal v) :: remove_default_untouched rest
termination_by structural l => l

/-- Treatment of a single dict value by remove_default_untouched: unwrap a
DefaultUntouched, recurse into a dict, keep anything else. -/
def removeDUVal : PyVal → PyVal
  | .untouched w => w
  | .pydict es => .pydict (remove_default_untouched es)
  | other => other
termination_by structural v => v
end

/-! ## ChikaConfig.from_dict (chika.py lines 307-342) -/

/-- Model of the final cls(**_state_dict) call: each declared field takes its
entry of the keyword dict when present, otherwise its dataclass default,
otherwise instantiation fails. -/
def instantiateFields : List FieldDecl → List (String × PyVal) →
    Except PyErr (List (String × PyVal))
  | [], _ => .ok []
  | fd :: rest, st => do
    let v ← (match alGet st fd.name with
      | some v => Except.ok v
      | Option.none =>
        match fd.dflt with
        | some d => Except.ok d
        | Option.none =>
          Except.error (.typeError ("missing required argument: " ++ fd.name)))
    let tl ← instantiateFields rest st
    .ok ((fd.name, v) :: tl)

mutual
/-- Per-field body of from_dict: nested dataclass hints recurse (note the
recursive call does not propagate allow_missing, matching line 318); the
isinstance Enum branch of line 319 never fires (see isinstanceEnum); present
values of primitive and container annotations are coerced by calling the
annotation, with a Python None value skipping the field; a missing key is
replaced by None under allow_missing and is an error otherwise. Returns the
zero or one _state_dict entries the field contributes. -/
def buildStateField : FieldDecl → List (String × PyVal) → Bool →
    Except PyErr (List (String × PyVal))
  | .mk name fty _ _, sd, am =>
    if isDataclassTy fty then
      match fty with
      | .dataclassT cls nfields =>
        match alGet sd name with
        | Option.none => .error (.keyError name)
        | some (.pydict inner) => do
          -- from_dict of the nested class, inlined: the recursive source call
          -- field_type_hints[name].from_dict(state_dict[name]) does not
          -- propagate allow_missing, so it runs with the default False
          let st ← buildState nfields inner false
          let vals ← instantiateFields nfields st
          .ok [(name, PyVal.obj cls vals)]
        | some _ => .error (.typeError "from_dict expects a mapping for a nested config")
      | _ => .error (.runtimeError "unreachable")
    else if isinstanceEnum fty then
      -- dead branch: isinstanceEnum is constantly false, because the hint is
      -- an Enum class, not an Enum instance
      match alGet sd name with
      | some v => do
        let w ← pyCallType fty v
        .ok [(name, w)]
      | Option.none => .error (.keyError name)
    else
      match alGet sd name with
      | some value =>
        -- ft := _unpack_optional(field.type); on an optional annotation this
        -- raises TypeError (see unpack_optional_spec)
        if is_optional fty then
          .error (.typeError "object of type type has no len()")
        else if isPrimitiveTy fty then
          match value with
          | .none => .ok []
          | v => do
            let w ← pyCallType fty v
            .ok [(name, w)]
        else if isContainerTy fty then
          -- typing.get_origin of the represented generics is the builtin
          -- container itself, so the _container_to_type translation is a
          -- no-op and origin(value) is the container conversion
          match value with
          | .none => .ok []
          | v => do
            let w ← pyCallType fty v
            .ok [(name, w)]
        else
          .ok [(name, value)]
      | Option.none =>
        if am then .ok [(name, PyVal.none)]
        else .error (.valueError ("key=" ++ name ++ " is expected, but could not be found"))
termination_by structural fd _sd _am => fd

/-- The _state_dict accumulation loop of from_dict over all fields. -/
def buildState : List FieldDecl → List (String × PyVal) → Bool →
    Except PyErr (List (String × PyVal))
  | [], _, _ => .ok []
  | fd :: rest, sd, am => do
    let hd ← buildStateField fd sd am
    let tl ← buildState rest sd am
    .ok (hd ++ tl)
termination_by structural fs _sd _am => fs

end

/-- ChikaConfig.from_dict: builds _state_dict field by field and instantiates
the dataclass with it. -/
def fromDict (cls : String) (fields : List FieldDecl)
    (sd : List (String × PyVal)) (am : Bool) : Except PyErr PyVal := do
  let st ← buildState fields sd am
  let vals ← instantiateFields fields st
  .ok (.obj cls vals)

/-! ## End-to-end pipeline: ChikaArgumentParser(cls).parse_args_into_dataclass -/

/-- The full resolution pipeline: build the CLI surface from the schema,
parse the command line into a namespace, run the unflatten and file-merge
loop, strip the DefaultUntouched provenance wrappers and instantiate the
dataclass via from_dict. The filesystem collaborator fs maps a path to the
mapping loaded from it. -/
def parse_args_into_dataclass (cls : String) (fields : List FieldDecl)
    (fs : String → Option (List (String × PyVal)))
    (cli : List (String × PyVal)) : Except PyErr PyVal := do
  let specs ← addArgsFields fields Option.none 0
  let ns ← parseNamespace specs cli
  let ud ← unflattenAux fields fs [] ns
  let cleaned := remove_default_untouched (toPyDictEntries ud)
  fromDict cls fields cleaned false

/-! ## Field declaration helpers (chika.py lines 188-297) -/

/-- Model of required(): a field whose dataclass default is None and whose
metadata carries the required flag. -/
def requiredField (help : Option String := Option.none) : Option PyVal × MetaInfo :=
  (some PyVal.none, { required := true, help := help })

/-- Model of with_help(default): a field with the given default, which is
also recorded in the metadata. -/
def with_help (default : PyVal) (help : Option String := Option.none) :
    Option PyVal × MetaInfo :=
  (some default, { default := some default, help := help })

/-- Model of bounded(default, _from, _to): _from and _to default to minus and
plus infinity (Option.none); a Number default outside the closed interval is
rejected at declaration time with ValueError; otherwise the field stores the
default and its metadata carries the bound-checking closure as its type entry
plus the default when it is not None. -/
def bounded (default : PyVal := .none) (lo hi : Option Rat := Option.none)
    (help : Option String := Option.none) : Except PyErr (Option PyVal × MetaInfo) :=
  let violation := match numOf default with
    | some x => !(loLe lo x && leHi hi x)
    | Option.none => false
  if violation then .error (.valueError "default value is out of range")
  else
    .ok (some default,
      { boundedType := some (lo, hi),
        default := match default with
          | .none => Option.none
          | d => some d,
        help := help })

/-! ## Shared concrete schemas for the claims -/

/-- Child schema A with a single int field c whose default is d. -/
def childSchema (d : Int) : List FieldDecl := [.mk "c" .intT (some (.int d)) {}]

/-- Two-level schema B with a required root float a and a nested config b of
class A; mirrors the nesting example of the spec. -/
def nestedSchema (d : Int) : List FieldDecl := [
  .mk "a" .floatT Option.none {},
  .mk "b" (.dataclassT "A" (childSchema d)) Option.none {}]

/-- Filesystem with a single config file cfg.json holding the mapping m. -/
def oneFileFs (m : List (String × PyVal)) : String → Option (List (String × PyVal)) :=
  fun p => if p = "cfg.json" then some m else Option.none

/-- Filesystem with no readable files. -/
def emptyFs : String → Option (List (String × PyVal)) := fun _ => Option.none

/-! ## Claims -/

/-- C1: for the nested leaf field b.c with declared default d, the resolution
pipeline obeys the precedence law default < file value < explicit CLI value:
with a file mapping supplying c = f and no CLI override the resolved b.c is
f; with an explicit CLI override v the resolved b.c is v regardless of the
file value f; with neither the resolved b.c is the declared default d. The
root field a behaves the same way with its explicit CLI value. -/
theorem C1_precedence_law (d f v : Int) :
    parse_args_into_dataclass "B" (nestedSchema d) (oneFileFs [("c", .int f)])
        [("a", .str "0.5"), ("b", .str "cfg.json")] =
      .ok (.obj "B" [("a", .float (mkRat 1 2)), ("b", .obj "A" [("c", .int f)])]) ∧
    parse_args_into_dataclass "B" (nestedSchema d) (oneFileFs [("c", .int f)])
        [("a", .str "0.5"), ("b", .str "cfg.json"), ("b.c", .int v)] =
      .ok (.obj "B" [("a", .float (mkRat 1 2)), ("b", .obj "A" [("c", .int v)])]) ∧
    parse_args_into_dataclass "B" (nestedSchema d) emptyFs
        [("a", .str "0.5")] =
      .ok (.obj "B" [("a", .float (mkRat 1 2)), ("b", .obj "A" [("c", .int d)])]) :=
  ⟨rfl, rfl, rfl⟩

/-- C3: the claim says the resolver unwraps one level of optional wrapping;
in the code, unpack_optional instead raises TypeError on every optional
annotation, because utils.py line 87 takes the first union member (a type
object) and line 88 calls len on it. Resolving an optional-wrapped primitive
therefore never returns the primitive, an optional-wrapped container never
returns the container, and the UnsupportedType ValueError of line 100 is
unreachable; the documented unwrap (the Optional int to int comment in the
source) never happens. -/
theorem C3_unpack_optional_crashes (t : FieldTy) (t1 t2 : FieldTy) :
    unpack_optional (optionalTy t) =
      .error (.typeError "object of type type has no len()") ∧
    unpack_optional (.unionT [t1, t2, .noneT]) =
      .error (.typeError "object of type type has no len()") := by
  constructor
  · simp [unpack_optional, optionalTy, is_optional, tyGetArgs, pyLenOfType,
      Bind.bind, Except.bind]
  · simp [unpack_optional, is_optional, tyGetArgs, pyLenOfType,
      Bind.bind, Except.bind]

/-- Schema with a single bool field c whose declared default is dflt. -/
def boolSchema (dflt : Bool) : List FieldDecl := [.mk "c" .boolT (some (.bool dflt)) {}]

/-- C4: a boolean field with default true resolves to false when its switch
is passed; with default false it resolves to true when the switch is passed;
in both cases the resolved value is the declared default when the switch is
absent (the source registers store_false exactly when the default is the
literal True, and the toggle constant is the negation of the default). -/
theorem C4_bool_toggle (dflt : Bool) :
    parse_args_into_dataclass "A" (boolSchema dflt) emptyFs [("c", .none)] =
      .ok (.obj "A" [("c", .bool (!dflt))]) ∧
    parse_args_into_dataclass "A" (boolSchema dflt) emptyFs [] =
      .ok (.obj "A" [("c", .bool dflt)]) := by
  cases dflt <;> exact ⟨rfl, rfl⟩

/-- Root schema with a required int field a (declared via the required()
helper) and a defaulted int field b. -/
def requiredSchema : List FieldDecl := [
  .mk "a" .intT (requiredField).1 (requiredField).2,
  .mk "b" .intT (some (.int 1)) {}]

/-- Two-level schema whose nested config A has a required int field r. -/
def requiredNestedSchema : List FieldDecl := [
  .mk "sub" (.dataclassT "A" [.mk "r" .intT (requiredField).1 (requiredField).2])
    Option.none {}]

/-- C6: a field declared with required() and given no value from any source
makes resolution fail with the argparse usage error naming the switch, whose
name is the fully qualified dotted field path; this holds for the root field
a and for the nested field sub.r, and supplying the value on the command
line resolves the field to that value at both nesting levels. -/
theorem C6_required (v : Int) :
    parse_args_into_dataclass "R" requiredSchema emptyFs [] =
      .error (.argparseError "the following arguments are required: --a") ∧
    parse_args_into_dataclass "R" requiredSchema emptyFs [("a", .int v)] =
      .ok (.obj "R" [("a", .int v), ("b", .int 1)]) ∧
    parse_args_into_dataclass "B" requiredNestedSchema emptyFs [] =
      .error (.argparseError "the following arguments are required: --sub.r") ∧
    parse_args_into_dataclass "B" requiredNestedSchema emptyFs [("sub.r", .int v)] =
      .ok (.obj "B" [("sub", .obj "A" [("r", .int v)])]) :=
  ⟨rfl, rfl, rfl, rfl⟩

/-- Depth-three schema: C contains B which contains A. -/
def tooDeepSchema (d : Int) : List FieldDecl :=
  [.mk "c" (.dataclassT "B" (nestedSchema d)) Option.none {}]

/-- C7: a nested-schema field encountered at nesting depth greater than zero
makes the surface builder fail with the NotImplementedError capping nesting
at two levels, and the whole pipeline fails that way eagerly, for every
command line and filesystem, before any parsing happens. -/
theorem C7_nesting_capped (name cls : String) (cd : Int)
    (dflt : Option PyVal) (m : MetaInfo) (pfx : Option String) (nest : Nat)
    (hn : 0 < nest) :
    addArgsField (.mk name (.dataclassT cls (childSchema cd)) dflt m) pfx nest =
      .error (.notImplemented "The depth of config is expected to be at most 2") ∧
    ∀ (d : Int) (fs : String → Option (List (String × PyVal)))
      (cli : List (String × PyVal)),
      parse_args_into_dataclass "C" (tooDeepSchema d) fs cli =
        .error (.notImplemented "The depth of config is expected to be at most 2") := by
  constructor
  · match nest, hn with
    | Nat.succ k, _ => rfl
  · intro d fs cli
    rfl

/-- Witness for C7 at concrete inputs. -/
theorem C7_nesting_capped_witness :
    addArgsField (.mk "b" (.dataclassT "A" (childSchema 0)) Option.none {})
        (some "c") 1 =
      .error (.notImplemented "The depth of config is expected to be at most 2") ∧
    parse_args_into_dataclass "C" (tooDeepSchema 0) emptyFs [] =
      .error (.notImplemented "The depth of config is expected to be at most 2") :=
  ⟨(C7_nesting_capped "b" "A" 0 Option.none {} (some "c") 1 (by decide)).1,
   (C7_nesting_capped "b" "A" 0 Option.none {} (some "c") 1 (by decide)).2
     0 emptyFs []⟩

/-- C9: a key of a loaded file mapping that has no entry in the collected
namespace sub-dict of its nested field (no registered dotted switch) is
dropped by the merge without any error: mergeFileKey leaves the dict
unchanged whenever the lookup misses, and end to end a file whose mapping
contains the undeclared key z next to the declared key c resolves exactly as
if z were absent, with z appearing nowhere in the result. -/
theorem C9_unknown_file_keys_dropped :
    (∀ (dd : List (String × PyVal)) (key : String) (w : PyVal),
      alGet dd key = Option.none → mergeFileKey dd (key, w) = dd) ∧
    ∀ (w : PyVal) (f d : Int),
      parse_args_into_dataclass "B" (nestedSchema d)
          (oneFileFs [("z", w), ("c", .int f)])
          [("a", .str "0.5"), ("b", .str "cfg.json")] =
        .ok (.obj "B" [("a", .float (mkRat 1 2)), ("b", .obj "A" [("c", .int f)])]) := by
  constructor
  · intro dd key w h
    unfold mergeFileKey
    rw [h]
  · intro w f d
    rfl

/-- The field produced by bounded(default=1, _from=-1, _to=2). -/
def boundedFieldC5 : Option PyVal × MetaInfo :=
  (bounded (.int 1) (some (-1)) (some 2)).toOption.getD (Option.none, {})

/-- Schema declaring a: float = bounded(default=1, _from=-1, _to=2),
mirroring the bound-violation example of the spec. -/
def boundedSchema : List FieldDecl :=
  [.mk "a" .floatT boundedFieldC5.1 boundedFieldC5.2]

/-- C5: the declaration-time half of the claim holds: bounded raises
ValueError exactly when a numeric default lies outside the closed interval
(with omitted bounds read as infinities), and a None default is never
checked. The resolution-time half fails: the generic branch of
add_dataclass_arguments overwrites the bound-checking closure with the plain
float annotation (chika.py line 125), so the CLI value 2.1 for the field
bounded(default=1, _from=-1, _to=2) is accepted and resolves to 2.1 instead
of failing; the discarded closure itself could never have validated a CLI
token anyway, since argparse hands it the raw string and the closure rejects
every non-Number argument. -/
theorem C5_bounds_not_enforced :
    (∀ (x : Rat) (lo hi : Option Rat),
      (bounded (.float x) lo hi).isOk = (loLe lo x && leHi hi x)) ∧
    (∀ lo hi : Option Rat, (bounded .none lo hi).isOk = true) ∧
    bounded (.int 1) (some (-1)) (some 2) =
      .ok (some (.int 1),
        { boundedType := some (some (-1), some 2), default := some (.int 1) }) ∧
    parse_args_into_dataclass "A" boundedSchema emptyFs [("a", .str "2.1")] =
      .ok (.obj "A" [("a", .float (mkRat 21 10))]) ∧
    convertToken (.boundedImpl (some (-1)) (some 2)) (.str "2.1") =
      .error (.valueError "value needs to be number") := by
  refine ⟨?_, fun lo hi => rfl, rfl, rfl, rfl⟩
  intro x lo hi
  unfold bounded numOf
  cases h : loLe lo x && leHi hi x <;> simp [h, Except.isOk, Except.toBool]

/-- Schema with a single int field a defaulting to 1. -/
def defaultedSchema : List FieldDecl := [.mk "a" .intT (some (.int 1)) {}]

/-- C8 counterexample: from_dict with allow_missing=true substitutes the
absent marker even for a field that has a declared default (the claim says
exactly the fields lacking both a value and a default get the marker), and
it does fail on a missing key when the field is a nested dataclass (the
claim says it never fails on a missing key). -/
theorem C8_counterexample :
    fromDict "A" defaultedSchema [] true = .ok (.obj "A" [("a", PyVal.none)]) ∧
    (FieldDecl.mk "a" .intT (some (.int 1)) {}).dflt = some (.int 1) ∧
    PyVal.none ≠ PyVal.int 1 ∧
    fromDict "B" requiredNestedSchema [] true = .error (.keyError "sub") :=
  ⟨rfl, rfl, fun h => PyVal.noConfusion h, rfl⟩

/-- Lookup in an association list whose values are all the None marker finds
the marker whenever it finds anything; combined with key membership it
always finds the marker. -/
theorem alGet_map_none (fields : List FieldDecl) (k : String)
    (h : ∃ f ∈ fields, f.name = k) :
    alGet (fields.map (fun f => (f.name, PyVal.none))) k = some PyVal.none := by
  induction fields with
  | nil => simp at h
  | cons fd rest ih =>
    obtain ⟨f, hf, hk⟩ := h
    simp only [List.map_cons, alGet]
    by_cases hh : fd.name = k
    · simp [hh]
    · simp only [hh, if_false]
      apply ih
      rcases List.mem_cons.mp hf with h1 | h2
      · exact absurd (h1 ▸ hk) hh
      · exact ⟨f, h2, hk⟩

/-- Instantiation from a keyword dict whose values are all the None marker
and whose keys cover every field assigns the marker to every field. -/
theorem instantiateFields_all_none (fields : List FieldDecl)
    (st : List (String × PyVal))
    (hst : ∀ f ∈ fields, alGet st f.name = some PyVal.none) :
    instantiateFields fields st =
      .ok (fields.map (fun f => (f.name, PyVal.none))) := by
  induction fields with
  | nil => rfl
  | cons fd rest ih =>
    have h1 : alGet st fd.name = some PyVal.none := hst fd (by simp)
    have h2 : instantiateFields rest st =
        .ok (rest.map (fun f => (f.name, PyVal.none))) :=
      ih (fun f hf => hst f (by simp [hf]))
    simp [instantiateFields, h1, h2, Bind.bind, Except.bind]

/-- A field whose annotation is not a dataclass and that is missing from the
state dict contributes the None marker under allow_missing and the
missing-key ValueError otherwise. -/
theorem buildStateField_missing (fd : FieldDecl)
    (h : isDataclassTy fd.ty = false) :
    buildStateField fd [] true = .ok [(fd.name, PyVal.none)] ∧
    buildStateField fd [] false =
      .error (.valueError ("key=" ++ fd.name ++ " is expected, but could not be found")) := by
  obtain ⟨name, ty, dflt, m⟩ := fd
  cases ty <;> simp_all [FieldDecl.ty, isDataclassTy] <;> exact ⟨rfl, rfl⟩

/-- The state-dict loop over an empty mapping with allow_missing gives every
non-dataclass field the None marker. -/
theorem buildState_empty_allow (fields : List FieldDecl)
    (h : ∀ f ∈ fields, isDataclassTy f.ty = false) :
    buildState fields [] true =
      .ok (fields.map (fun f => (f.name, PyVal.none))) := by
  induction fields with
  | nil => rfl
  | cons fd rest ih =>
    have h1 := (buildStateField_missing fd (h fd (by simp))).1
    have h2 := ih (fun f hf => h f (by simp [hf]))
    simp [buildState, h1, h2, Bind.bind, Except.bind]

/-- C8 amended: with allow_missing=true, from_dict substitutes the None
marker for every non-dataclass field lacking a supplied value, regardless of
any declared default, and never fails on those missing keys; with
allow_missing=false a missing key fails with the ValueError naming the
expected key (the first missing field in declaration order). Missing
nested-dataclass fields raise KeyError even under allow_missing (see the
counterexample). -/
theorem C8_allow_missing (cls : String) (fd : FieldDecl) (rest : List FieldDecl)
    (h : ∀ f ∈ fd :: rest, isDataclassTy f.ty = false) :
    fromDict cls (fd :: rest) [] true =
      .ok (.obj cls ((fd :: rest).map (fun f => (f.name, PyVal.none)))) ∧
    fromDict cls (fd :: rest) [] false =
      .error (.valueError ("key=" ++ fd.name ++ " is expected, but could not be found")) := by
  constructor
  · have h1 := buildState_empty_allow (fd :: rest) h
    have h2 : instantiateFields (fd :: rest)
        ((fd :: rest).map (fun f => (f.name, PyVal.none))) =
        .ok ((fd :: rest).map (fun f => (f.name, PyVal.none))) :=
      instantiateFields_all_none _ _
        (fun f hf => alGet_map_none _ _ ⟨f, hf, rfl⟩)
    simp only [List.map_cons] at h1 h2 ⊢
    simp [fromDict, h1, h2, Bind.bind, Except.bind]
  · have h1 := (buildStateField_missing fd (h fd (by simp))).2
    simp [fromDict, buildState, h1, Bind.bind, Except.bind]

/-- Witness for C8 amended at a concrete schema with declared defaults. -/
theorem C8_allow_missing_witness :
    fromDict "C" [FieldDecl.mk "a" .intT (some (.int 1)) {},
                  FieldDecl.mk "b" .strT (some (.str "test")) {}] [] true =
      .ok (.obj "C" [("a", PyVal.none), ("b", PyVal.none)]) ∧
    fromDict "C" [FieldDecl.mk "a" .intT (some (.int 1)) {},
                  FieldDecl.mk "b" .strT (some (.str "test")) {}] [] false =
      .error (.valueError "key=a is expected, but could not be found") := by
  have := C8_allow_missing "C" (FieldDecl.mk "a" .intT (some (.int 1)) {})
    [FieldDecl.mk "b" .strT (some (.str "test")) {}]
    (by
      intro f hf
      simp only [List.mem_cons, List.not_mem_nil, or_false] at hf
      rcases hf with rfl | rfl <;> rfl)
  exact ⟨this.1, this.2⟩

/-- Witness for C9 at concrete inputs. -/
theorem C9_unknown_file_keys_dropped_witness :
    mergeFileKey [("c", PyVal.int 5)] ("z", PyVal.int 7) = [("c", PyVal.int 5)] ∧
    parse_args_into_dataclass "B" (nestedSchema 0)
        (oneFileFs [("z", .int 9), ("c", .int 5)])
        [("a", .str "0.5"), ("b", .str "cfg.json")] =
      .ok (.obj "B" [("a", .float (mkRat 1 2)), ("b", .obj "A" [("c", .int 5)])]) :=
  ⟨C9_unknown_file_keys_dropped.1 [("c", PyVal.int 5)] "z" (PyVal.int 7) rfl,
   C9_unknown_file_keys_dropped.2 (PyVal.int 9) 5 0⟩

/-! ## Typing of resolved configurations, for the round-trip claim -/

/-- The declared names of a field list. -/
def namesOf (fs : List FieldDecl) : List String := fs.map FieldDecl.name

/-- Annotations built from primitives and containers of primitives only:
the shapes whose values dataclasses.asdict copies unchanged. -/
def flatTy : FieldTy → Bool
  | .boolT | .intT | .floatT | .strT => true
  | .listOf e => flatTy e
  | .tupleOf e => flatTy e
  | _ => false

mutual
/-- Values free of dataclass instances, dicts and DefaultUntouched wrappers
at every depth. -/
def flatVal : PyVal → Bool
  | .list xs => flatList xs
  | .tuple xs => flatList xs
  | .enumV _ v => flatVal v
  | .obj _ _ => false
  | .pydict _ => false
  | .untouched _ => false
  | _ => true
termination_by structural v => v

def flatList : List PyVal → Bool
  | [] => true
  | v :: vs => flatVal v && flatList vs
termination_by structural l => l
end

mutual
/-- A value inhabits an annotation: primitives match their constructor,
containers hold well-typed elements, enum members carry one of the declared
member values, dataclass instances carry the class name and a well-typed
field assignment list. -/
def wellTypedVal : FieldTy → PyVal → Bool
  | .boolT, .bool _ => true
  | .intT, .int _ => true
  | .floatT, .float _ => true
  | .strT, .str _ => true
  | .listOf e, .list xs => wellTypedList e xs
  | .tupleOf e, .tuple xs => wellTypedList e xs
  | .enumT cls vs, .enumV c w => cls == c && vs.any (fun u => PyVal.beq u w)
  | .dataclassT cls fs, .obj c vals => cls == c && wellTypedFields fs vals
  | _, _ => false
termination_by structural _t v => v

/-- Every element of the list inhabits the element annotation. -/
def wellTypedList : FieldTy → List PyVal → Bool
  | _, [] => true
  | e, v :: vs => wellTypedVal e v && wellTypedList e vs
termination_by structural _t l => l

/-- The field assignments carry exactly the declared names, in declaration
order, with well-typed values. -/
def wellTypedFields : List FieldDecl → List (String × PyVal) → Bool
  | [], [] => true
  | .mk nm t _ _ :: fds, (n, v) :: vs =>
    (nm == n) && wellTypedVal t v && wellTypedFields fds vs
  | _, _ => false
termination_by structural _f l => l
end

mutual
/-- Annotations on which from_dict inverts to_dict: primitives, containers
of primitives and nested dataclasses of such fields with distinct names.
Enumerations are excluded (see the C2 counterexample), as are optional
wrappers (unpack_optional raises on them, see C3). -/
def goodTy : FieldTy → Bool
  | .boolT | .intT | .floatT | .strT => true
  | .listOf e => flatTy e
  | .tupleOf e => flatTy e
  | .dataclassT _ fs => goodDecls fs
  | _ => false

/-- All field annotations good and all field names distinct. -/
def goodDecls : List FieldDecl → Bool
  | [] => true
  | .mk nm t _ _ :: fds =>
    !((namesOf fds).contains nm) && goodTy t && goodDecls fds
end

/-! ## Round-trip lemmas -/

mutual
/-- dataclasses.asdict is the identity on values without dataclass
instances, dicts or wrappers. -/
theorem asdict_flat (v : PyVal) (h : flatVal v = true) : asdict v = v := by
  cases v with
  | list xs => simp only [asdict]; rw [asdictList_flat xs (by simpa [flatVal] using h)]
  | tuple xs => simp only [asdict]; rw [asdictList_flat xs (by simpa [flatVal] using h)]
  | obj c fs => simp [flatVal] at h
  | pydict es => simp [flatVal] at h
  | untouched w => simp [flatVal] at h
  | _ => rfl

/-- Elementwise version of asdict_flat. -/
theorem asdictList_flat (xs : List PyVal) (h : flatList xs = true) :
    asdictList xs = xs := by
  cases xs with
  | nil => rfl
  | cons v vs =>
    simp only [flatList, Bool.and_eq_true] at h
    simp only [asdictList]
    rw [asdict_flat v h.1, asdictList_flat vs h.2]
end

mutual
/-- A well-typed value of a flat annotation is flat. -/
theorem wellTyped_flat (t : FieldTy) (v : PyVal) (hf : flatTy t = true)
    (hw : wellTypedVal t v = true) : flatVal v = true := by
  cases t with
  | boolT => cases v <;> simp_all [wellTypedVal, flatVal]
  | intT => cases v <;> simp_all [wellTypedVal, flatVal]
  | floatT => cases v <;> simp_all [wellTypedVal, flatVal]
  | strT => cases v <;> simp_all [wellTypedVal, flatVal]
  | listOf e =>
    cases v <;> simp_all [wellTypedVal, flatVal]
    exact wellTypedList_flat e _ hf (by assumption)
  | tupleOf e =>
    cases v <;> simp_all [wellTypedVal, flatVal]
    exact wellTypedList_flat e _ hf (by assumption)
  | _ => simp [flatTy] at hf

/-- Elementwise version of wellTyped_flat. -/
theorem wellTypedList_flat (e : FieldTy) (xs : List PyVal)
    (hf : flatTy e = true) (hw : wellTypedList e xs = true) :
    flatList xs = true := by
  cases xs with
  | nil => rfl
  | cons v vs =>
    simp only [wellTypedList, Bool.and_eq_true] at hw
    simp only [flatList, Bool.and_eq_true]
    exact ⟨wellTyped_flat e v hf hw.1, wellTypedList_flat e vs hf hw.2⟩
end

/-- to_dict of a field assignment list maps each value through asdict and
the top-level enum conversion. -/
theorem enum_to_value_asdictEntries (vals : List (String × PyVal)) :
    enum_to_value (asdictEntries vals) =
      vals.map (fun p => (p.1, enumValConv (asdict p.2))) := by
  induction vals with
  | nil => rfl
  | cons hd tl ih =>
    obtain ⟨n, v⟩ := hd
    simp [asdictEntries, enum_to_value, ih]

/-- Lookup commutes with mapping over the values of an association list. -/
theorem alGet_map (g : PyVal → PyVal) (vals : List (String × PyVal)) (k : String) :
    alGet (vals.map (fun p => (p.1, g p.2))) k = (alGet vals k).map g := by
  induction vals with
  | nil => rfl
  | cons hd tl ih =>
    obtain ⟨n, v⟩ := hd
    by_cases h : n = k <;> simp [alGet, h, ih]

/-- Mapping the identity over the entries of an association list. -/
theorem map_pair_id (vals : List (String × PyVal)) :
    vals.map (fun p => (p.1, p.2)) = vals := by
  induction vals with
  | nil => rfl
  | cons hd tl ih => obtain ⟨n, v⟩ := hd; simp [ih]

/-- Each declared field finds, in the dict sd, the g-image of its aligned
value of vals. This is the per-field lookup invariant of the round-trip
proof. -/
def lookupsG (g : PyVal → PyVal) :
    List FieldDecl → List (String × PyVal) → List (String × PyVal) → Prop
  | [], [], _ => True
  | fd :: fds, (_, v) :: vs, sd =>
    alGet sd fd.name = some (g v) ∧ lookupsG g fds vs sd
  | _, _, _ => False

/-- The lookup invariant is stable under prepending an entry whose key is
none of the declared names. -/
theorem lookupsG_extend (g : PyVal → PyVal) :
    ∀ (fds : List FieldDecl) (vs sd : List (String × PyVal)) (k : String)
      (w : PyVal), lookupsG g fds vs sd →
      (namesOf fds).contains k = false → lookupsG g fds vs ((k, w) :: sd) := by
  intro fds
  induction fds with
  | nil =>
    intro vs sd k w h hk
    cases vs with
    | nil => trivial
    | cons a b => exact absurd h (by simp [lookupsG])
  | cons fd fds ih =>
    intro vs sd k w h hk
    cases vs with
    | nil => exact absurd h (by simp [lookupsG])
    | cons p vs2 =>
      obtain ⟨n, v⟩ := p
      obtain ⟨h1, h2⟩ := h
      simp only [namesOf, List.map_cons, List.contains_cons, Bool.or_eq_false_iff,
        beq_eq_false_iff_ne] at hk
      refine ⟨?_, ih vs2 sd k w h2 (by simpa [namesOf] using hk.2)⟩
      have hne : k ≠ fd.name := hk.1
      simp only [alGet, if_neg hne]
      exact h1

/-- When the fields are well typed against vals and the names are distinct,
the dict obtained by mapping g over vals satisfies the lookup invariant. -/
theorem lookupsG_self (g : PyVal → PyVal) :
    ∀ (fs : List FieldDecl) (vals : List (String × PyVal)),
      wellTypedFields fs vals = true → goodDecls fs = true →
      lookupsG g fs vals (vals.map (fun p => (p.1, g p.2))) := by
  intro fs
  induction fs with
  | nil =>
    intro vals hw hg
    cases vals with
    | nil => trivial
    | cons a b => simp [wellTypedFields] at hw
  | cons fd fds ih =>
    intro vals hw hg
    obtain ⟨nm, t, d, m⟩ := fd
    cases vals with
    | nil => simp [wellTypedFields] at hw
    | cons p vs =>
      obtain ⟨n, v⟩ := p
      simp only [wellTypedFields, Bool.and_eq_true, beq_iff_eq] at hw
      obtain ⟨⟨hn, hv⟩, hw2⟩ := hw
      simp only [goodDecls, Bool.and_eq_true, Bool.not_eq_true'] at hg
      obtain ⟨⟨hc, hgt⟩, hg2⟩ := hg
      constructor
      · simp [alGet, FieldDecl.name, hn]
      · exact lookupsG_extend g fds vs _ n (g v) (ih vs hw2 hg2) (hn ▸ hc)

/-- Instantiation returns exactly the aligned values when each field finds
its value in the keyword dict. -/
theorem instantiateFields_ok :
    ∀ (fs : List FieldDecl) (vals st : List (String × PyVal)),
      wellTypedFields fs vals = true → lookupsG (fun w => w) fs vals st →
      instantiateFields fs st = .ok vals := by
  intro fs
  induction fs with
  | nil =>
    intro vals st hw hl
    cases vals with
    | nil => rfl
    | cons a b => simp [wellTypedFields] at hw
  | cons fd fds ih =>
    intro vals st hw hl
    obtain ⟨nm, t, d, m⟩ := fd
    cases vals with
    | nil => simp [wellTypedFields] at hw
    | cons p vs =>
      obtain ⟨n, v⟩ := p
      simp only [wellTypedFields, Bool.and_eq_true, beq_iff_eq] at hw
      obtain ⟨⟨hn, hv⟩, hw2⟩ := hw
      obtain ⟨h1, h2⟩ := hl
      simp only [FieldDecl.name] at h1
      subst hn
      simp [instantiateFields, FieldDecl.name, FieldDecl.dflt, h1,
        ih vs st hw2 h2, Bind.bind, Except.bind]

mutual
/-- Per-field inverse: a field with a good annotation and a well-typed value
whose to_dict image is found in the state dict under the field name is
rebuilt unchanged by the from_dict field step. -/
theorem fromDict_field_inverts (name : String) (t : FieldTy) (d : Option PyVal)
    (m : MetaInfo) (v : PyVal) (sd : List (String × PyVal))
    (hg : goodTy t = true) (hw : wellTypedVal t v = true)
    (hl : alGet sd name = some (enumValConv (asdict v))) :
    buildStateField (.mk name t d m) sd false = .ok [(name, v)] := by
  cases t with
  | boolT =>
    cases v <;> simp [wellTypedVal] at hw
    case bool b =>
      simp only [asdict, enumValConv] at hl
      simp [buildStateField, isDataclassTy, isinstanceEnum, is_optional,
        isPrimitiveTy, isContainerTy, hl, pyCallType, pyTruthy,
        Bind.bind, Except.bind]
  | intT =>
    cases v <;> simp [wellTypedVal] at hw
    case int n =>
      simp only [asdict, enumValConv] at hl
      simp [buildStateField, isDataclassTy, isinstanceEnum, is_optional,
        isPrimitiveTy, isContainerTy, hl, pyCallType, Bind.bind, Except.bind]
  | floatT =>
    cases v <;> simp [wellTypedVal] at hw
    case float q =>
      simp only [asdict, enumValConv] at hl
      simp [buildStateField, isDataclassTy, isinstanceEnum, is_optional,
        isPrimitiveTy, isContainerTy, hl, pyCallType, Bind.bind, Except.bind]
  | strT =>
    cases v <;> simp [wellTypedVal] at hw
    case str s =>
      simp only [asdict, enumValConv] at hl
      simp [buildStateField, isDataclassTy, isinstanceEnum, is_optional,
        isPrimitiveTy, isContainerTy, hl, pyCallType, pyStrOfVal,
        Bind.bind, Except.bind]
  | listOf e =>
    cases v <;> simp [wellTypedVal] at hw
    case list xs =>
      have hflat : flatList xs = true :=
        wellTypedList_flat e xs (by simpa [goodTy] using hg) hw
      have ha : asdict (PyVal.list xs) = PyVal.list xs := by
        simp [asdict, asdictList_flat xs hflat]
      rw [ha] at hl
      simp only [enumValConv] at hl
      simp [buildStateField, isDataclassTy, isinstanceEnum, is_optional,
        isPrimitiveTy, isContainerTy, hl, pyCallType, Bind.bind, Except.bind]
  | tupleOf e =>
    cases v <;> simp [wellTypedVal] at hw
    case tuple xs =>
      have hflat : flatList xs = true :=
        wellTypedList_flat e xs (by simpa [goodTy] using hg) hw
      have ha : asdict (PyVal.tuple xs) = PyVal.tuple xs := by
        simp [asdict, asdictList_flat xs hflat]
      rw [ha] at hl
      simp only [enumValConv] at hl
      simp [buildStateField, isDataclassTy, isinstanceEnum, is_optional,
        isPrimitiveTy, isContainerTy, hl, pyCallType, Bind.bind, Except.bind]
  | enumT cls vs => simp [goodTy] at hg
  | unionT args => simp [goodTy] at hg
  | noneT => simp [goodTy] at hg
  | dataclassT cls nfs =>
    cases v <;> simp [wellTypedVal] at hw
    case obj c2 vals =>
      obtain ⟨hcls, hwf⟩ := hw
      subst hcls
      have hg2 : goodDecls nfs = true := by simpa [goodTy] using hg
      have hlk : lookupsG (fun w => enumValConv (asdict w)) nfs vals
          (enum_to_value (asdictEntries vals)) := by
        rw [enum_to_value_asdictEntries]
        exact lookupsG_self _ nfs vals hwf hg2
      have hbs : buildState nfs (enum_to_value (asdictEntries vals)) false = .ok vals :=
        fromDict_fields_invert nfs vals _ hg2 hwf hlk
      have hin : instantiateFields nfs vals = .ok vals := by
        apply instantiateFields_ok nfs vals vals hwf
        have hid := lookupsG_self (fun w => w) nfs vals hwf hg2
        rwa [map_pair_id] at hid
      simp only [asdict, enumValConv] at hl
      simp [buildStateField, isDataclassTy, hl, hbs, hin, Bind.bind, Except.bind]

/-- The state-dict loop rebuilds the whole aligned value list. -/
theorem fromDict_fields_invert (fs : List FieldDecl) (vals sd : List (String × PyVal))
    (hg : goodDecls fs = true) (hw : wellTypedFields fs vals = true)
    (hl : lookupsG (fun w => enumValConv (asdict w)) fs vals sd) :
    buildState fs sd false = .ok vals := by
  cases fs with
  | nil =>
    cases vals with
    | nil => rfl
    | cons a b => simp [wellTypedFields] at hw
  | cons fd fds =>
    obtain ⟨nm, t, d, m⟩ := fd
    cases vals with
    | nil => simp [wellTypedFields] at hw
    | cons p vs =>
      obtain ⟨n, v⟩ := p
      simp only [wellTypedFields, Bool.and_eq_true, beq_iff_eq] at hw
      obtain ⟨⟨hn, hv⟩, hw2⟩ := hw
      simp only [goodDecls, Bool.and_eq_true, Bool.not_eq_true'] at hg
      obtain ⟨⟨hc, hgt⟩, hg2⟩ := hg
      obtain ⟨h1, h2⟩ := hl
      simp only [FieldDecl.name] at h1
      have hhd := fromDict_field_inverts nm t d m v sd hgt hv h1
      have htl := fromDict_fields_invert fds vs sd hg2 hw2 h2
      subst hn
      simp [buildState, hhd, htl, Bind.bind, Except.bind]
end

/-- C2 amended: for every resolved configuration c of a schema whose fields
are primitives, containers of primitives or nested schemas of such fields
with distinct names (no enumeration-typed and no optional-wrapped fields),
from_dict inverts to_dict: from_dict(to_dict(c)) == c. The original claim
includes enumeration-typed fields and fails on them (see the C2
counterexample). -/
theorem C2_roundtrip_no_enum (cls : String) (fs : List FieldDecl) (c : PyVal)
    (hg : goodDecls fs = true)
    (hw : wellTypedVal (.dataclassT cls fs) c = true) :
    fromDict cls fs (to_dict_entries c) false = .ok c := by
  cases c <;> simp [wellTypedVal] at hw
  case obj c2 vals =>
    obtain ⟨hcls, hwf⟩ := hw
    subst hcls
    have hsd : to_dict_entries (PyVal.obj cls vals) =
        enum_to_value (asdictEntries vals) := by
      simp [to_dict_entries, asdict]
    have hlk : lookupsG (fun w => enumValConv (asdict w)) fs vals
        (enum_to_value (asdictEntries vals)) := by
      rw [enum_to_value_asdictEntries]
      exact lookupsG_self _ fs vals hwf hg
    have hbs := fromDict_fields_invert fs vals _ hg hwf hlk
    have hin : instantiateFields fs vals = .ok vals := by
      apply instantiateFields_ok fs vals vals hwf
      have hid := lookupsG_self (fun w => w) fs vals hwf hg
      rwa [map_pair_id] at hid
    rw [hsd]
    simp [fromDict, hbs, hin, Bind.bind, Except.bind]

/-- Schema B with a single field of a plain (non-mixin) enumeration type. -/
def enumSchema : List FieldDecl :=
  [.mk "a" (.enumT "E" [.str "a", .str "b"]) (some (.enumV "E" (.str "a"))) {}]

/-- A resolved configuration of enumSchema holding the member E.a. -/
def enumConfig : PyVal := .obj "B" [("a", .enumV "E" (.str "a"))]

/-- C2 counterexample: for a configuration with an enumeration-typed field,
to_dict serializes the member to its literal value, but from_dict copies the
literal back raw (the isinstance Enum check of chika.py line 319 is False
for Enum classes), so the round trip returns a configuration holding the
plain literal instead of the member: from_dict(to_dict(c)) differs from c,
refuting the claim for enumeration-typed fields. -/
theorem C2_counterexample :
    to_dict_entries enumConfig = [("a", .str "a")] ∧
    fromDict "B" enumSchema (to_dict_entries enumConfig) false =
      .ok (.obj "B" [("a", .str "a")]) ∧
    PyVal.obj "B" [("a", .str "a")] ≠ enumConfig ∧
    wellTypedVal (.dataclassT "B" enumSchema) enumConfig = true := by
  refine ⟨rfl, rfl, ?_, rfl⟩
  intro h
  simp [enumConfig] at h

/-- Schema exercising every round-tripping field shape: primitives, a
container, and a nested schema. -/
def rtSchema : List FieldDecl := [
  .mk "a" .intT (some (.int 1)) {},
  .mk "s" .strT Option.none {},
  .mk "l" (.listOf .intT) Option.none {},
  .mk "sub" (.dataclassT "A" [
    .mk "x" .floatT Option.none {},
    .mk "flag" .boolT (some (.bool true)) {}]) Option.none {}]

/-- A resolved configuration of rtSchema. -/
def rtConfig : PyVal := .obj "B" [
  ("a", .int 3), ("s", .str "hi"), ("l", .list [.int 1, .int 2]),
  ("sub", .obj "A" [("x", .float (mkRat 3 2)), ("flag", .bool false)])]

/-- Witness for the amended C2 at a concrete nested configuration. -/
theorem C2_roundtrip_no_enum_witness :
    goodDecls rtSchema = true ∧
    wellTypedVal (.dataclassT "B" rtSchema) rtConfig = true ∧
    fromDict "B" rtSchema (to_dict_entries rtConfig) false = .ok rtConfig :=
  ⟨rfl, rfl, C2_roundtrip_no_enum "B" rtSchema rtConfig rfl rfl⟩

/-! ## Freedom from the DefaultUntouched sentinel (C10) -/

mutual
/-- The value holds no DefaultUntouched wrapper at any depth. -/
def noUntouched : PyVal → Bool
  | .untouched _ => false
  | .list xs => noUntouchedList xs
  | .tuple xs => noUntouchedList xs
  | .enumV _ v => noUntouched v
  | .obj _ fs => noUntouchedEntries fs
  | .pydict es => noUntouchedEntries es
  | _ => true
termination_by structural v => v

def noUntouchedList : List PyVal → Bool
  | [] => true
  | v :: vs => noUntouched v && noUntouchedList vs
termination_by structural l => l

def noUntouchedEntries : List (String × PyVal) → Bool
  | [] => true
  | (_, v) :: es => noUntouched v && noUntouchedEntries es
termination_by structural l => l
end

/-- Namespace values are wrapper-free except possibly for one top-level
DefaultUntouched whose payload is wrapper-free, the exact shape
add_dataclass_arguments produces. -/
def shallowClean : PyVal → Bool
  | .untouched w => noUntouched w
  | v => noUntouched v

/-- All values of an entry list are shallow clean. -/
def entriesShallowClean (es : List (String × PyVal)) : Bool :=
  es.all (fun p => shallowClean p.2)

/-- A wrapper-free value is shallow clean. -/
theorem noUntouched_shallowClean (v : PyVal) (h : noUntouched v = true) :
    shallowClean v = true := by
  cases v <;> simp_all [shallowClean, noUntouched]

mutual
/-- Dict shape accepted by remove_default_untouched: wrappers may appear
only as direct dict values (at any dict nesting depth) and hold wrapper-free
payloads. -/
def duClean : PyVal → Bool
  | .untouched w => noUntouched w
  | .pydict es => duCleanEntries es
  | v => noUntouched v
termination_by structural v => v

def duCleanEntries : List (String × PyVal) → Bool
  | [] => true
  | (_, v) :: es => duClean v && duCleanEntries es
termination_by structural l => l
end

mutual
/-- A wrapper-free value is du-clean. -/
theorem noUntouched_duClean (v : PyVal) (h : noUntouched v = true) :
    duClean v = true := by
  cases v with
  | pydict es =>
    simp only [noUntouched] at h
    simp only [duClean]
    exact noUntouchedEntries_duClean es h
  | _ => simp_all [duClean, noUntouched]

/-- Entry-list version of noUntouched_duClean. -/
theorem noUntouchedEntries_duClean (es : List (String × PyVal))
    (h : noUntouchedEntries es = true) : duCleanEntries es = true := by
  cases es with
  | nil => rfl
  | cons e tl =>
    obtain ⟨k, w⟩ := e
    simp only [noUntouchedEntries, Bool.and_eq_true] at h
    simp only [duCleanEntries, Bool.and_eq_true]
    exact ⟨noUntouched_duClean w h.1, noUntouchedEntries_duClean tl h.2⟩
end

/-- A shallow-clean value is du-clean. -/
theorem shallowClean_duClean (v : PyVal) (h : shallowClean v = true) :
    duClean v = true := by
  cases v with
  | untouched w => simpa [shallowClean, duClean] using h
  | _ => exact noUntouched_duClean _ (by simpa [shallowClean] using h)

mutual
/-- remove_default_untouched eliminates every wrapper from a du-clean dict. -/
theorem removeDU_clean (es : List (String × PyVal)) (h : duCleanEntries es = true) :
    noUntouchedEntries (remove_default_untouched es) = true := by
  cases es with
  | nil => rfl
  | cons e tl =>
    obtain ⟨k, v⟩ := e
    simp only [duCleanEntries, Bool.and_eq_true] at h
    simp only [remove_default_untouched, noUntouchedEntries, Bool.and_eq_true]
    exact ⟨removeDUVal_clean v h.1, removeDU_clean tl h.2⟩

/-- Value-level version of removeDU_clean. -/
theorem removeDUVal_clean (v : PyVal) (h : duClean v = true) :
    noUntouched (removeDUVal v) = true := by
  cases v with
  | untouched w => simpa [removeDUVal, duClean] using h
  | pydict es =>
    simp only [duClean] at h
    simp only [removeDUVal, noUntouched]
    exact removeDU_clean es h
  | _ => simp_all [removeDUVal, duClean, noUntouched]
end

/-- Calling an annotation on a wrapper-free token yields a wrapper-free
value: the conversions either build fresh primitives or pass (parts of) the
token through. -/
theorem pyCallType_clean (t : FieldTy) (tok v : PyVal)
    (htok : noUntouched tok = true) (h : pyCallType t tok = .ok v) :
    noUntouched v = true := by
  cases t <;> cases tok <;>
    simp only [pyCallType] at h <;>
    (try split at h) <;>
    first
      | (injection h with h2; subst h2; simp_all [noUntouched])
      | (injection h)

/-- Converting a wrapper-free token through a switch type function yields a
wrapper-free value. -/
theorem convertToken_clean (tf : TypeFn) (tok v : PyVal)
    (htok : noUntouched tok = true) (h : convertToken tf tok = .ok v) :
    noUntouched v = true := by
  cases tf with
  | noneFn => simp only [convertToken] at h; simp_all
  | ofTy t => exact pyCallType_clean t tok v htok h
  | boundedImpl lo hi =>
    simp only [convertToken, boundedImplCall] at h
    rcases hq : numOf tok with _ | x <;> rw [hq] at h
    · simp_all
    · split at h <;> (try split at h) <;> simp_all

/-- The computed default of a switch is at most one DefaultUntouched wrapper
over a wrapper-free value. -/
def specClean (a : ArgSpec) : Bool := a.default.all shallowClean

/-- All switches have clean defaults. -/
def specsClean (specs : List ArgSpec) : Bool := specs.all specClean

/-- An optional value that is wrapper-free when present. -/
def optClean : Option PyVal → Bool
  | some v => noUntouched v
  | Option.none => true

mutual
/-- Annotations of the recognized categories whose nested declarations are
clean. Union and NoneType annotations are outside the recognized categories
(the former crash unpack_optional, see C3). -/
def tyClean : FieldTy → Bool
  | .dataclassT _ fs => declsClean fs
  | .unionT _ => false
  | .noneT => false
  | _ => true

/-- Schema declarations whose dataclass defaults and metadata defaults are
wrapper-free, recursively. -/
def declsClean : List FieldDecl → Bool
  | [] => true
  | .mk _ t d m :: fds =>
    optClean d && optClean m.default && tyClean t && declsClean fds
end

/-- A clean optional value is a clean switch default. -/
theorem optClean_specDefault (o : Option PyVal) (h : optClean o = true) :
    o.all shallowClean = true := by
  cases o with
  | none => rfl
  | some v => simpa [Option.all] using noUntouched_shallowClean v h

/-- The enum-branch switch has a clean default. -/
theorem addEnumArg_clean (fn : String) (ft : FieldTy) (vs : List PyVal)
    (d : Option PyVal) (kw : MetaInfo) (hd : optClean d = true)
    (hm : optClean kw.default = true) :
    specClean (addEnumArg fn ft vs d kw) = true := by
  unfold addEnumArg specClean
  split
  · exact optClean_specDefault _ hm
  · exact optClean_specDefault _ hd

/-- The bool-branch switch has a clean default. -/
theorem addBoolArg_clean (fn : String) (d : Option PyVal) (kw : MetaInfo)
    (hm : optClean kw.default = true) :
    specClean (addBoolArg fn d kw) = true := by
  unfold addBoolArg specClean
  exact optClean_specDefault _ hm

/-- The container-branch switch has a clean default. -/
theorem addContainerArg_clean (fn : String) (e : FieldTy) (kw : MetaInfo)
    (hm : optClean kw.default = true) :
    specClean (addContainerArg fn e kw) = true := by
  unfold addContainerArg specClean
  exact optClean_specDefault _ hm

/-- The generic-branch switch has a clean default: every DefaultUntouched it
installs wraps a wrapper-free value. -/
theorem addLeafArg_clean (fn : String) (ft : FieldTy) (d : Option PyVal)
    (kw : MetaInfo) (nest : Nat) (hd : optClean d = true)
    (hm : optClean kw.default = true) :
    specClean (addLeafArg fn ft d kw nest) = true := by
  unfold addLeafArg specClean
  split
  · split
    · exact optClean_specDefault _ hm
    · rfl
  · split
    · rename_i d0 hne
      have hdc : noUntouched d0 = true := by simpa [optClean] using hd
      simp only [Option.all]
      split
      · exact noUntouched_shallowClean d0 hdc
      · simpa [shallowClean] using hdc
    · split
      · split
        · rename_i md heq
          have hmc : noUntouched md = true := by
            rw [heq] at hm
            simpa [optClean] using hm
          simpa [Option.all, shallowClean] using hmc
        · exact optClean_specDefault _ hm
      · exact optClean_specDefault _ hm

/-- The child-level builder registers only switches with clean defaults,
for clean declarations. -/
theorem addArgsFieldChild_clean (nm : String) (t : FieldTy) (d : Option PyVal)
    (m : MetaInfo) (pfx : Option String) (specs : List ArgSpec)
    (hd : optClean d = true) (hm : optClean m.default = true)
    (ht : tyClean t = true)
    (h : addArgsFieldChild (.mk nm t d m) pfx = .ok specs) :
    specsClean specs = true := by
  cases t <;>
    first
      | exact Except.noConfusion h
      | (injection h with h2; subst h2;
         simp only [specsClean, List.all_cons, List.all_nil, Bool.and_true];
         first
           | exact addEnumArg_clean _ _ _ _ _ hd hm
           | exact addBoolArg_clean _ _ _ hm
           | exact addContainerArg_clean _ _ _ hm
           | exact addLeafArg_clean _ _ _ _ _ hd hm)
      | exact absurd ht (by simp [tyClean])

/-- Field-loop version of addArgsFieldChild_clean. -/
theorem addArgsFieldsChild_clean :
    ∀ (fs : List FieldDecl) (pfx : Option String) (specs : List ArgSpec),
      declsClean fs = true → addArgsFieldsChild fs pfx = .ok specs →
      specsClean specs = true := by
  intro fs
  induction fs with
  | nil =>
    intro pfx specs hc h
    injection h with h2
    subst h2
    rfl
  | cons fd rest ih =>
    intro pfx specs hc h
    obtain ⟨nm, t, d, m⟩ := fd
    simp only [declsClean, Bool.and_eq_true] at hc
    obtain ⟨⟨⟨hd, hm⟩, ht⟩, hrest⟩ := hc
    simp only [addArgsFieldsChild] at h
    rcases h1 : addArgsFieldChild (.mk nm t d m) pfx with e | hdspecs <;>
      rw [h1] at h
    · exact Except.noConfusion h
    · rcases h2 : addArgsFieldsChild rest pfx with e | tlspecs <;> rw [h2] at h
      · exact Except.noConfusion h
      · simp only [Bind.bind, Except.bind] at h
        injection h with h3
        subst h3
        simp only [specsClean, List.all_append, Bool.and_eq_true]
        exact ⟨addArgsFieldChild_clean nm t d m pfx hdspecs hd hm ht h1,
               ih pfx tlspecs hrest h2⟩

/-- The root builder registers only switches with clean defaults, for clean
declarations. -/
theorem addArgsField_clean (nm : String) (t : FieldTy) (d : Option PyVal)
    (m : MetaInfo) (pfx : Option String) (nest : Nat) (specs : List ArgSpec)
    (hd : optClean d = true) (hm : optClean m.default = true)
    (ht : tyClean t = true)
    (h : addArgsField (.mk nm t d m) pfx nest = .ok specs) :
    specsClean specs = true := by
  cases t with
  | unionT args => simp [tyClean] at ht
  | noneT => simp [tyClean] at ht
  | dataclassT cls nfs =>
    cases nest with
    | succ k => exact Except.noConfusion h
    | zero =>
      cases d with
      | some d0 => exact Except.noConfusion h
      | none =>
        have h2 : Except.bind (addArgsFieldsChild nfs (some nm))
            (fun children => Except.ok
              ({ name := qualName pfx nm, suppress := true : ArgSpec} :: children)) =
            Except.ok specs := h
        rcases hc : addArgsFieldsChild nfs (some nm) with e | children <;>
          rw [hc] at h2
        · exact Except.noConfusion h2
        · simp only [Except.bind] at h2
          injection h2 with h3
          subst h3
          simp only [specsClean, List.all_cons, Bool.and_eq_true]
          refine ⟨rfl, ?_⟩
          exact addArgsFieldsChild_clean nfs (some nm) children
            (by simpa [tyClean] using ht) hc
  | _ =>
    first
      | exact Except.noConfusion h
      | (injection h with h2; subst h2;
         simp only [specsClean, List.all_cons, List.all_nil, Bool.and_true];
         first
           | exact addEnumArg_clean _ _ _ _ _ hd hm
           | exact addBoolArg_clean _ _ _ hm
           | exact addContainerArg_clean _ _ _ hm
           | exact addLeafArg_clean _ _ _ _ _ hd hm)

/-- Field-loop version of addArgsField_clean. -/
theorem addArgsFields_clean :
    ∀ (fs : List FieldDecl) (pfx : Option String) (nest : Nat)
      (specs : List ArgSpec),
      declsClean fs = true → addArgsFields fs pfx nest = .ok specs →
      specsClean specs = true := by
  intro fs
  induction fs with
  | nil =>
    intro pfx nest specs hc h
    injection h with h2
    subst h2
    rfl
  | cons fd rest ih =>
    intro pfx nest specs hc h
    obtain ⟨nm, t, d, m⟩ := fd
    simp only [declsClean, Bool.and_eq_true] at hc
    obtain ⟨⟨⟨hd, hm⟩, ht⟩, hrest⟩ := hc
    simp only [addArgsFields] at h
    rcases h1 : addArgsField (.mk nm t d m) pfx nest with e | hdspecs <;>
      rw [h1] at h
    · exact Except.noConfusion h
    · rcases h2 : addArgsFields rest pfx nest with e | tlspecs <;> rw [h2] at h
      · exact Except.noConfusion h
      · simp only [Bind.bind, Except.bind] at h
        injection h with h3
        subst h3
        simp only [specsClean, List.all_append, Bool.and_eq_true]
        exact ⟨addArgsField_clean nm t d m pfx nest hdspecs hd hm ht h1,
               ih pfx nest tlspecs hrest h2⟩

/-- A looked-up value satisfies any predicate satisfied by all values of the
association list. -/
theorem alGet_all {α : Type} (p : α → Bool) (d : List (String × α)) (k : String)
    (v : α) (hd : d.all (fun e => p e.2) = true) (h : alGet d k = some v) :
    p v = true := by
  induction d with
  | nil => exact Option.noConfusion h
  | cons e tl ih =>
    obtain ⟨n, w⟩ := e
    simp only [List.all_cons, Bool.and_eq_true] at hd
    simp only [alGet] at h
    by_cases hn : n = k
    · rw [if_pos hn] at h
      injection h with h2
      subst h2
      exact hd.1
    · rw [if_neg hn] at h
      exact ih hd.2 h

/-- Updating an association list preserves a valuewise predicate. -/
theorem alSet_all {α : Type} (p : α → Bool) (d : List (String × α)) (k : String)
    (v : α) (hd : d.all (fun e => p e.2) = true) (hv : p v = true) :
    (alSet d k v).all (fun e => p e.2) = true := by
  induction d with
  | nil => simp [alSet, hv]
  | cons e tl ih =>
    obtain ⟨n, w⟩ := e
    simp only [List.all_cons, Bool.and_eq_true] at hd
    simp only [alSet]
    by_cases hn : n = k
    · simp [if_pos hn, hv, hd.1, hd.2]
    · simp only [if_neg hn, List.all_cons, Bool.and_eq_true]
      exact ⟨hd.1, ih hd.2⟩

/-- The mutual noUntouchedEntries agrees with the List.all form. -/
theorem noUntouchedEntries_eq_all (es : List (String × PyVal)) :
    noUntouchedEntries es = es.all (fun p => noUntouched p.2) := by
  induction es with
  | nil => rfl
  | cons e tl ih =>
    obtain ⟨n, w⟩ := e
    simp [noUntouchedEntries, ih]

/-- Filtering preserves an all-predicate. -/
theorem all_filter_of_all {α : Type} (q p : α → Bool) (l : List α)
    (h : l.all q = true) : (l.filter p).all q = true := by
  induction l with
  | nil => rfl
  | cons a tl ih =>
    simp only [List.all_cons, Bool.and_eq_true] at h
    simp only [List.filter]
    by_cases hp : p a
    · simp only [hp, List.all_cons, Bool.and_eq_true]
      exact ⟨h.1, ih h.2⟩
    · simp only [Bool.not_eq_true] at hp
      simp only [hp]
      exact ih h.2

/-- The namespace value one switch contributes is shallow clean when its
default is clean and the command-line tokens are wrapper-free. -/
theorem specValue_clean (a : ArgSpec) (cli : List (String × PyVal))
    (e : Option (String × PyVal)) (hcli : noUntouchedEntries cli = true)
    (ha : specClean a = true) (h : specValue a cli = .ok e) :
    ∀ n v, e = some (n, v) → shallowClean v = true := by
  intro n v hev
  subst hev
  unfold specValue at h
  split at h
  · -- the switch was passed: the token is converted
    rename_i tok hg
    have htok : noUntouched tok = true := by
      rw [noUntouchedEntries_eq_all] at hcli
      exact alGet_all _ cli a.name tok hcli hg
    split at h
    · injection h with h2
      injection h2 with h3
      injection h3 with _ h5
      rw [← h5]
      rfl
    · injection h with h2
      injection h2 with h3
      injection h3 with _ h5
      rw [← h5]
      rfl
    · rcases hcv : convertToken a.typeFn tok with er | v0 <;> rw [hcv] at h <;>
        simp only [Bind.bind, Except.bind] at h
      · exact Except.noConfusion h
      · have hv0 : noUntouched v0 = true := convertToken_clean _ _ _ htok hcv
        split at h
        · split at h
          · injection h with h2
            injection h2 with h3
            injection h3 with _ h5
            rw [← h5]
            exact noUntouched_shallowClean _ hv0
          · exact Except.noConfusion h
        · injection h with h2
          injection h2 with h3
          injection h3 with _ h5
          rw [← h5]
          exact noUntouched_shallowClean _ hv0
  · -- the switch was absent: the computed default is used
    split at h
    · injection h with h2
      exact Option.noConfusion h2
    · injection h with h2
      injection h2 with h3
      injection h3 with _ h5
      rw [← h5]
      split
      · rename_i d0 heq
        simpa [specClean, heq, Option.all] using ha
      · split <;> rfl

/-- All namespace entries contributed by clean switches are shallow clean. -/
theorem specValues_clean :
    ∀ (specs : List ArgSpec) (cli ns : List (String × PyVal)),
      specsClean specs = true → noUntouchedEntries cli = true →
      specValues specs cli = .ok ns → entriesShallowClean ns = true := by
  intro specs
  induction specs with
  | nil =>
    intro cli ns hs hcli h
    injection h with h2
    subst h2
    rfl
  | cons a rest ih =>
    intro cli ns hs hcli h
    simp only [specsClean, List.all_cons, Bool.and_eq_true] at hs
    simp only [specValues] at h
    rcases h1 : specValue a cli with e | hd <;> rw [h1] at h
    · exact Except.noConfusion h
    · rcases h2 : specValues rest cli with e | tl <;> rw [h2] at h
      · exact Except.noConfusion h
      · simp only [Bind.bind, Except.bind] at h
        injection h with h3
        subst h3
        have htl : entriesShallowClean tl = true := ih cli tl hs.2 hcli h2
        rcases hd with _ | ⟨n, v⟩
        · exact htl
        · have hv := specValue_clean a cli _ hcli hs.1 h1 n v rfl
          simp only [entriesShallowClean, List.all_cons, Bool.and_eq_true]
          exact ⟨hv, htl⟩

/-- The whole namespace built by parseNamespace is shallow clean. -/
theorem parseNamespace_clean (specs : List ArgSpec)
    (cli ns : List (String × PyVal)) (hs : specsClean specs = true)
    (hcli : noUntouchedEntries cli = true)
    (h : parseNamespace specs cli = .ok ns) :
    entriesShallowClean ns = true := by
  unfold parseNamespace at h
  rcases hf : specs.find? (fun a => a.required && (alGet cli a.name).isNone)
    with _ | a <;> rw [hf] at h
  · rcases h1 : specValues (specs.filter (fun a => !a.suppress)) cli
      with e | reg <;> rw [h1] at h
    · exact Except.noConfusion h
    · rcases h2 : specValues
        (specs.filter (fun a => a.suppress && (alGet cli a.name).isSome)) cli
        with e | late <;> rw [h2] at h
      · simp only [Bind.bind, Except.bind] at h
        exact Except.noConfusion h
      · simp only [Bind.bind, Except.bind] at h
        injection h with h3
        subst h3
        have hr := specValues_clean _ cli reg
          (all_filter_of_all _ _ specs hs) hcli h1
        have hl := specValues_clean _ cli late
          (all_filter_of_all _ _ specs hs) hcli h2
        simp only [entriesShallowClean, List.all_append, Bool.and_eq_true]
        exact ⟨hr, hl⟩
  · exact Except.noConfusion h

/-- Cleanliness of one unflatten accumulator entry: root leaves are shallow
clean, nested sub-dicts are entrywise shallow clean. -/
def uentryClean : UEntry → Bool
  | .leaf v => shallowClean v
  | .sub dd => entriesShallowClean dd

/-- Cleanliness of the whole unflatten accumulator. -/
def accClean (acc : List (String × UEntry)) : Bool :=
  acc.all (fun e => uentryClean e.2)

/-- The sub-dict read from a clean accumulator is clean (an absent or leaf
entry reads as the empty dict). -/
theorem getSub_clean (acc : List (String × UEntry)) (k : String)
    (hacc : accClean acc = true) :
    entriesShallowClean (getSub (alGet acc k)) = true := by
  rcases hg : alGet acc k with _ | u
  · rfl
  · have hu := alGet_all uentryClean acc k u hacc hg
    cases u with
    | leaf v => rfl
    | sub dd => simpa [getSub, uentryClean] using hu

/-- Merging one wrapper-free file value into a clean sub-dict keeps it
clean. -/
theorem mergeFileKey_clean (dd : List (String × PyVal)) (kv : String × PyVal)
    (hd : entriesShallowClean dd = true) (hv : noUntouched kv.2 = true) :
    entriesShallowClean (mergeFileKey dd kv) = true := by
  rcases hg : alGet dd kv.1 with _ | old
  · unfold mergeFileKey
    rw [hg]
    exact hd
  · have hold : shallowClean old = true := alGet_all _ dd kv.1 old hd hg
    unfold mergeFileKey
    rw [hg]
    cases old <;>
      first
        | exact hd
        | exact alSet_all _ dd kv.1 _ hd (noUntouched_shallowClean _ hv)
        | exact alSet_all _ dd kv.1 _ hd hold

/-- Folding a wrapper-free file mapping into a clean sub-dict keeps it
clean. -/
theorem foldlMerge_clean :
    ∀ (loaded dd : List (String × PyVal)),
      entriesShallowClean dd = true → noUntouchedEntries loaded = true →
      entriesShallowClean (loaded.foldl mergeFileKey dd) = true := by
  intro loaded
  induction loaded with
  | nil =>
    intro dd hd _
    exact hd
  | cons kv tl ih =>
    intro dd hd hl
    obtain ⟨k, w⟩ := kv
    simp only [noUntouchedEntries, Bool.and_eq_true] at hl
    simp only [List.foldl]
    exact ih _ (mergeFileKey_clean dd (k, w) hd hl.1) hl.2

/-- One iteration of the namespace loop keeps the accumulator clean, given a
clean namespace value and wrapper-free file contents. -/
theorem processItem_clean (fields : List FieldDecl)
    (fs : String → Option (List (String × PyVal)))
    (acc : List (String × UEntry)) (k : String) (v : PyVal)
    (acc2 : List (String × UEntry))
    (hacc : accClean acc = true)
    (hfs : ∀ p m, fs p = some m → noUntouchedEntries m = true)
    (hv : shallowClean v = true)
    (h : processItem fields fs acc k v = .ok acc2) :
    accClean acc2 = true := by
  unfold processItem at h
  split at h
  · split at h
    · rename_i path
      split at h
      · split at h
        · rename_i loaded hfp
          injection h with h2
          subst h2
          apply alSet_all _ acc k _ hacc
          show entriesShallowClean (loaded.foldl mergeFileKey (getSub (alGet acc k))) = true
          exact foldlMerge_clean loaded _ (getSub_clean acc k hacc) (hfs path loaded hfp)
        · exact Except.noConfusion h
      · exact Except.noConfusion h
    · exact Except.noConfusion h
  · split at h
    · rename_i cn cf hsd
      injection h with h2
      subst h2
      apply alSet_all _ acc cn _ hacc
      show entriesShallowClean (alSet (getSub (alGet acc cn)) cf v) = true
      exact alSet_all _ _ cf v (getSub_clean acc cn hacc) hv
    · injection h with h2
      subst h2
      exact alSet_all _ acc k _ hacc hv

/-- The whole namespace loop keeps the accumulator clean. -/
theorem unflattenAux_clean :
    ∀ (ns : List (String × PyVal)) (fields : List FieldDecl)
      (fs : String → Option (List (String × PyVal)))
      (acc acc2 : List (String × UEntry)),
      accClean acc = true →
      (∀ p m, fs p = some m → noUntouchedEntries m = true) →
      entriesShallowClean ns = true →
      unflattenAux fields fs acc ns = .ok acc2 → accClean acc2 = true := by
  intro ns
  induction ns with
  | nil =>
    intro fields fs acc acc2 hacc hfs hns h
    injection h with h2
    subst h2
    exact hacc
  | cons kv tl ih =>
    intro fields fs acc acc2 hacc hfs hns h
    obtain ⟨k, v⟩ := kv
    simp only [entriesShallowClean, List.all_cons, Bool.and_eq_true] at hns
    simp only [unflattenAux] at h
    rcases h1 : processItem fields fs acc k v with e | acc1 <;> rw [h1] at h <;>
      simp only [Bind.bind, Except.bind] at h
    · exact Except.noConfusion h
    · exact ih fields fs acc1 acc2
        (processItem_clean fields fs acc k v acc1 hacc hfs hns.1 h1) hfs hns.2 h

/-- Entrywise shallow-clean dicts are du-clean. -/
theorem entriesShallow_duCleanEntries (es : List (String × PyVal))
    (h : entriesShallowClean es = true) : duCleanEntries es = true := by
  induction es with
  | nil => rfl
  | cons e tl ih =>
    obtain ⟨n, w⟩ := e
    simp only [entriesShallowClean, List.all_cons, Bool.and_eq_true] at h
    simp only [duCleanEntries, Bool.and_eq_true]
    exact ⟨shallowClean_duClean w h.1, ih (by simpa [entriesShallowClean] using h.2)⟩

/-- The collapsed unflatten accumulator is du-clean. -/
theorem toPyDict_duClean (acc : List (String × UEntry))
    (hacc : accClean acc = true) :
    duCleanEntries (toPyDictEntries acc) = true := by
  induction acc with
  | nil => rfl
  | cons e tl ih =>
    obtain ⟨n, u⟩ := e
    simp only [accClean, List.all_cons, Bool.and_eq_true] at hacc
    simp only [toPyDictEntries, List.map_cons, duCleanEntries, Bool.and_eq_true]
    refine ⟨?_, by simpa [toPyDictEntries] using ih (by simpa [accClean] using hacc.2)⟩
    cases u with
    | leaf v => exact shallowClean_duClean v hacc.1
    | sub dd =>
      show duClean (PyVal.pydict dd) = true
      simp only [duClean]
      exact entriesShallow_duCleanEntries dd hacc.1

/-- Instantiation from a wrapper-free keyword dict over clean declarations
yields wrapper-free field values. -/
theorem instantiateFields_clean :
    ∀ (fs : List FieldDecl) (st vals : List (String × PyVal)),
      declsClean fs = true → st.all (fun p => noUntouched p.2) = true →
      instantiateFields fs st = .ok vals →
      vals.all (fun p => noUntouched p.2) = true := by
  intro fs
  induction fs with
  | nil =>
    intro st vals _ _ h
    injection h with h2
    subst h2
    rfl
  | cons fd rest ih =>
    intro st vals hc hst h
    obtain ⟨nm, t, d, m⟩ := fd
    simp only [declsClean, Bool.and_eq_true] at hc
    obtain ⟨⟨⟨hd, hm⟩, ht⟩, hrest⟩ := hc
    simp only [instantiateFields, FieldDecl.name, FieldDecl.dflt, Bind.bind] at h
    split at h
    · rename_i w hga
      simp only [Except.bind] at h
      rcases htl : instantiateFields rest st with e | tl <;> rw [htl] at h <;>
        simp only [Except.bind] at h
      · exact Except.noConfusion h
      · injection h with h2
        subst h2
        simp only [List.all_cons, Bool.and_eq_true]
        exact ⟨alGet_all _ st _ _ hst hga, ih st tl hrest hst htl⟩
    · split at h
      · rename_i d0 hd0
        simp only [Except.bind] at h
        rcases htl : instantiateFields rest st with e | tl <;> rw [htl] at h <;>
          simp only [Except.bind] at h
        · exact Except.noConfusion h
        · injection h with h2
          subst h2
          simp only [List.all_cons, Bool.and_eq_true]
          refine ⟨?_, ih st tl hrest hst htl⟩
          simpa [optClean] using hd
      · simp only [Except.bind] at h
        exact Except.noConfusion h

/-- The non-nested field step of from_dict yields wrapper-free entries from
a wrapper-free state dict. -/
theorem buildStateField_nonnested_clean (nm : String) (t : FieldTy)
    (d : Option PyVal) (m : MetaInfo) (sd : List (String × PyVal)) (am : Bool)
    (out : List (String × PyVal))
    (hnd : isDataclassTy t = false) (ho : is_optional t = false)
    (hsd : sd.all (fun p => noUntouched p.2) = true)
    (h : buildStateField (.mk nm t d m) sd am = .ok out) :
    out.all (fun p => noUntouched p.2) = true := by
  unfold buildStateField at h
  split at h
  · rename_i hc
    rw [hnd] at hc
    exact Bool.noConfusion hc
  · split at h
    · rename_i hc
      simp [isinstanceEnum] at hc
    · split at h
      · rename_i value hgv
        have hval : noUntouched value = true := alGet_all _ sd nm value hsd hgv
        split at h
        · rename_i hc
          rw [ho] at hc
          exact Bool.noConfusion hc
        · split at h
          · split at h
            · injection h with h2
              subst h2
              rfl
            · rcases hpc : pyCallType t value with e | w <;> rw [hpc] at h <;>
                simp only [Bind.bind, Except.bind] at h
              · exact Except.noConfusion h
              · injection h with h2
                subst h2
                have hw : noUntouched w = true := pyCallType_clean t value w hval hpc
                simp [List.all_cons, hw]
          · split at h
            · split at h
              · injection h with h2
                subst h2
                rfl
              · rcases hpc : pyCallType t value with e | w <;> rw [hpc] at h <;>
                  simp only [Bind.bind, Except.bind] at h
                · exact Except.noConfusion h
                · injection h with h2
                  subst h2
                  have hw : noUntouched w = true := pyCallType_clean t value w hval hpc
                  simp [List.all_cons, hw]
            · injection h with h2
              subst h2
              simp [List.all_cons, hval]
      · split at h
        · injection h with h2
          subst h2
          rfl
        · exact Except.noConfusion h

mutual
/-- The from_dict field step yields wrapper-free entries for clean
annotations and a wrapper-free state dict. -/
theorem buildStateField_clean (nm : String) (t : FieldTy) (d : Option PyVal)
    (m : MetaInfo) (sd : List (String × PyVal)) (am : Bool)
    (out : List (String × PyVal))
    (ht : tyClean t = true) (hsd : sd.all (fun p => noUntouched p.2) = true)
    (h : buildStateField (.mk nm t d m) sd am = .ok out) :
    out.all (fun p => noUntouched p.2) = true := by
  cases t with
  | unionT args => exact absurd ht (by simp [tyClean])
  | noneT => exact absurd ht (by simp [tyClean])
  | dataclassT cls nfs =>
    simp only [buildStateField, isDataclassTy] at h
    split at h
    · split at h
      · exact Except.noConfusion h
      · rename_i inner hgi
        rcases hbs : buildState nfs inner false with e | st <;> rw [hbs] at h <;>
          simp only [Bind.bind, Except.bind] at h
        · exact Except.noConfusion h
        · rcases hin : instantiateFields nfs st with e | vals <;> rw [hin] at h <;>
            simp only [Except.bind] at h
          · exact Except.noConfusion h
          · injection h with h2
            subst h2
            have hinner : inner.all (fun p => noUntouched p.2) = true := by
              have hpd := alGet_all _ sd nm _ hsd hgi
              rw [← noUntouchedEntries_eq_all]
              simpa [noUntouched] using hpd
            have hst := buildState_clean nfs inner false st
              (by simpa [tyClean] using ht) hinner hbs
            have hvals := instantiateFields_clean nfs st vals
              (by simpa [tyClean] using ht) hst hin
            have : noUntouched (PyVal.obj cls vals) = true := by
              simp only [noUntouched]
              rw [noUntouchedEntries_eq_all]
              exact hvals
            simp [List.all_cons, this]
      · exact Except.noConfusion h
    · rename_i hc
      exact absurd trivial hc
  | boolT =>
    exact buildStateField_nonnested_clean nm FieldTy.boolT d m sd am out rfl rfl hsd h
  | intT =>
    exact buildStateField_nonnested_clean nm FieldTy.intT d m sd am out rfl rfl hsd h
  | floatT =>
    exact buildStateField_nonnested_clean nm FieldTy.floatT d m sd am out rfl rfl hsd h
  | strT =>
    exact buildStateField_nonnested_clean nm FieldTy.strT d m sd am out rfl rfl hsd h
  | listOf e =>
    exact buildStateField_nonnested_clean nm (FieldTy.listOf e) d m sd am out rfl rfl hsd h
  | tupleOf e =>
    exact buildStateField_nonnested_clean nm (FieldTy.tupleOf e) d m sd am out rfl rfl hsd h
  | enumT ecls vs =>
    exact buildStateField_nonnested_clean nm (FieldTy.enumT ecls vs) d m sd am out rfl rfl hsd h

/-- Loop version of buildStateField_clean. -/
theorem buildState_clean (fs : List FieldDecl) (sd : List (String × PyVal))
    (am : Bool) (st : List (String × PyVal))
    (hc : declsClean fs = true)
    (hsd : sd.all (fun p => noUntouched p.2) = true)
    (h : buildState fs sd am = .ok st) :
    st.all (fun p => noUntouched p.2) = true := by
  cases fs with
  | nil =>
    injection h with h2
    subst h2
    rfl
  | cons fd rest =>
    obtain ⟨nm, t, d, m⟩ := fd
    simp only [declsClean, Bool.and_eq_true] at hc
    obtain ⟨⟨⟨hd, hm⟩, ht⟩, hrest⟩ := hc
    simp only [buildState] at h
    rcases h1 : buildStateField (.mk nm t d m) sd am with e | hdout <;>
      rw [h1] at h <;> simp only [Bind.bind, Except.bind] at h
    · exact Except.noConfusion h
    · rcases h2 : buildState rest sd am with e | tlout <;> rw [h2] at h <;>
        simp only [Except.bind] at h
      · exact Except.noConfusion h
      · injection h with h3
        subst h3
        simp only [List.all_append, Bool.and_eq_true]
        exact ⟨buildStateField_clean nm t d m sd am hdout ht hsd h1,
               buildState_clean rest sd am tlout hrest hsd h2⟩
end

/-- C10: every successfully resolved configuration is free of the
DefaultUntouched provenance sentinel at every depth. For any schema of the
recognized annotation categories whose declared defaults and metadata
defaults carry no sentinel, any filesystem whose loaded mappings carry no
sentinel and any command line whose tokens carry no sentinel, a successful
run of the resolution pipeline returns a configuration with no
DefaultUntouched anywhere inside it: remove_default_untouched strips every
wrapper the surface builder installed before from_dict instantiates the
value. -/
theorem C10_no_untouched_in_result (cls : String) (fields : List FieldDecl)
    (fs : String → Option (List (String × PyVal)))
    (cli : List (String × PyVal)) (c : PyVal)
    (hdecl : declsClean fields = true)
    (hfs : ∀ p m, fs p = some m → noUntouchedEntries m = true)
    (hcli : noUntouchedEntries cli = true)
    (h : parse_args_into_dataclass cls fields fs cli = .ok c) :
    noUntouched c = true := by
  unfold parse_args_into_dataclass at h
  rcases h1 : addArgsFields fields Option.none 0 with e | specs <;> rw [h1] at h <;>
    simp only [Bind.bind, Except.bind] at h
  · exact Except.noConfusion h
  · rcases h2 : parseNamespace specs cli with e | ns <;> rw [h2] at h <;>
      simp only [Except.bind] at h
    · exact Except.noConfusion h
    · rcases h3 : unflattenAux fields fs [] ns with e | ud <;> rw [h3] at h <;>
        simp only [Except.bind] at h
      · exact Except.noConfusion h
      · have hspecs : specsClean specs = true :=
          addArgsFields_clean fields Option.none 0 specs hdecl h1
        have hns : entriesShallowClean ns = true :=
          parseNamespace_clean specs cli ns hspecs hcli h2
        have hud : accClean ud = true :=
          unflattenAux_clean ns fields fs [] ud rfl hfs hns h3
        have hcleaned : noUntouchedEntries
            (remove_default_untouched (toPyDictEntries ud)) = true :=
          removeDU_clean _ (toPyDict_duClean ud hud)
        unfold fromDict at h
        rcases h4 : buildState fields
            (remove_default_untouched (toPyDictEntries ud)) false with e | st <;>
          rw [h4] at h <;> simp only [Bind.bind, Except.bind] at h
        · exact Except.noConfusion h
        · rcases h5 : instantiateFields fields st with e | vals <;> rw [h5] at h <;>
            simp only [Except.bind] at h
          · exact Except.noConfusion h
          · injection h with h6
            subst h6
            have hst := buildState_clean fields _ false st hdecl
              (by rw [← noUntouchedEntries_eq_all]; exact hcleaned) h4
            have hvals := instantiateFields_clean fields st vals hdecl hst h5
            simp only [noUntouched]
            rw [noUntouchedEntries_eq_all]
            exact hvals

/-- Witness for C10 at a concrete two-level run with a file merge, a CLI
override and an untouched default all present. -/
theorem C10_no_untouched_in_result_witness :
    noUntouched (PyVal.obj "B" [("a", .float (mkRat 1 2)),
      ("b", .obj "A" [("c", .int 7)])]) = true :=
  C10_no_untouched_in_result "B" (nestedSchema 3) (oneFileFs [("c", .int 7)])
    [("a", .str "0.5"), ("b", .str "cfg.json")]
    (PyVal.obj "B" [("a", .float (mkRat 1 2)), ("b", .obj "A" [("c", .int 7)])])
    rfl
    (by
      intro p m hm
      unfold oneFileFs at hm
      split at hm
      · injection hm with h2
        subst h2
        rfl
      · exact Option.noConfusion hm)
    rfl
    rfl

end Chika
